import Mathlib

/-!
A verification development for a five-stage didactic C compiler
(lexer, parser, semantic analyzer, TAC generator, code generator).

Each Python source file is shallowly embedded: classes become structures,
mutable visitor state becomes explicit state passing, Python exceptions
become `Except`, and Python lists become Lean lists.  Definitions keep the
source names (snake_case) wherever Lean allows.

The file is laid out as: all definitions first, then all theorems.
-/

set_option maxHeartbeats 1000000

namespace Compile

/-! ## Definitions -/

/- ### Decimal rendering of naturals

Python renders counters with f-strings (`f"t{n}"`, `f"L{n}"`), i.e. decimal
notation.  We embed that rendering directly (little-endian digit list,
reversed for printing) so that injectivity can be proved via a round trip. -/

def decDigits (n : Nat) : List Nat :=
  if h : n < 10 then [n] else (n % 10) :: decDigits (n / 10)
decreasing_by exact Nat.div_lt_self (by omega) (by omega)

def decVal : List Nat → Nat
  | [] => 0
  | d :: ds => d + 10 * decVal ds

def digitChar (d : Nat) : Char :=
  match d with
  | 0 => '0' | 1 => '1' | 2 => '2' | 3 => '3' | 4 => '4'
  | 5 => '5' | 6 => '6' | 7 => '7' | 8 => '8' | 9 => '9'
  | _ => '0'

def charDigit (c : Char) : Nat :=
  match c with
  | '0' => 0 | '1' => 1 | '2' => 2 | '3' => 3 | '4' => 4
  | '5' => 5 | '6' => 6 | '7' => 7 | '8' => 8 | '9' => 9
  | _ => 0

def natToDec (n : Nat) : String :=
  ⟨((decDigits n).reverse.map digitChar)⟩

/-- Name of the n-th TAC temporary: Python `f"t{n}"`. -/
def tName (n : Nat) : String := "t" ++ natToDec n

/-- Name of the n-th TAC label: Python `f"L{n}"`. -/
def lName (n : Nat) : String := "L" ++ natToDec n

/- ### AST (from `parser.py`)

`parser.py` defines the AST as dataclasses.  Expressions form a nested tree
(`FunctionCall` holds a list of arguments); we use a mutual inductive with an
explicit argument-list type so that structural induction is available.
`FloatLiteral` stores a Python float; only its printed form ever matters to
the stages under verification, so we carry that string. -/

mutual
inductive Expression where
  | intLit (value : Int)
  | floatLit (value : String)
  | stringLit (value : String)
  | ident (name : String)
  | binaryOp (operator : String) (left right : Expression)
  | unaryOp (operator : String) (operand : Expression)
  | assignment (target : String) (value : Expression)
  | functionCall (name : String) (arguments : ExprList)
deriving DecidableEq

inductive ExprList where
  | nil
  | cons (head : Expression) (tail : ExprList)
deriving DecidableEq
end

def ExprList.length : ExprList → Nat
  | .nil => 0
  | .cons _ t => t.length + 1

/- Statements: `IfStmt.else_stmt` and `ForStmt.init` are optional in the
source; we use a mutual optional-statement type for clean induction. -/

mutual
inductive Stmt where
  | varDecl (var_type name : String) (initializer : Option Expression)
  | compound (statements : StmtList)
  | exprStmt (expression : Option Expression)
  | returnStmt (expression : Option Expression)
  | ifStmt (condition : Expression) (then_stmt : Stmt) (else_stmt : OptStmt)
  | whileStmt (condition : Expression) (body : Stmt)
  | forStmt (init : OptStmt) (condition update : Option Expression) (body : Stmt)
deriving DecidableEq

inductive OptStmt where
  | none
  | some (s : Stmt)
deriving DecidableEq

inductive StmtList where
  | nil
  | cons (head : Stmt) (tail : StmtList)
deriving DecidableEq
end

/-- Top-level declaration.  `FunctionDecl.body` is `Optional[CompoundStmt]` in
the source; we carry the compound's statement list directly. -/
inductive Decl where
  | functionDecl (return_type name : String)
      (parameters : List (String × String)) (body : Option StmtList)
  | varDecl (var_type name : String) (initializer : Option Expression)
deriving DecidableEq

/-- `Program` owns the ordered top-level declarations. -/
structure Program where
  declarations : List Decl
deriving DecidableEq

/- ### TAC instructions (from `intermediate_code.py`) -/

inductive TACInstruction where
  | assign (result arg1 : String)
  | binaryOp (result arg1 op arg2 : String)
  | unaryOp (result op arg : String)
  | label (label : String)
  | goto (label : String)
  | ifGoto (condition label : String)
  | ifFalseGoto (condition label : String)
  | call (result : Option String) (function : String) (n_args : Nat)
  | param (arg : String)
  | ret (value : Option String)
  | functionStart (name : String)
  | functionEnd (name : String)
deriving DecidableEq

/- ### IR generator (from `intermediate_code.py`, class IntermediateCodeGenerator)

The generator's mutable fields become a state record threaded through the
visit functions. -/

structure GenState where
  instructions : List TACInstruction
  temp_counter : Nat
  label_counter : Nat
deriving DecidableEq

def new_temp (s : GenState) : String × GenState :=
  (tName s.temp_counter, { s with temp_counter := s.temp_counter + 1 })

def new_label (s : GenState) : String × GenState :=
  (lName s.label_counter, { s with label_counter := s.label_counter + 1 })

def emit (i : TACInstruction) (s : GenState) : GenState :=
  { s with instructions := s.instructions ++ [i] }

/-- Rendering of an integer-literal operand: `str(node.value)`. -/
def intOperand (v : Int) : String := toString v

mutual
/-- `visit_expression`: lowers an expression, returning the name holding its
result together with the updated generator state. -/
def visit_expression : Expression → GenState → String × GenState
  | .intLit v, s => (intOperand v, s)
  | .floatLit v, s => (v, s)
  | .stringLit v, s => ("\"" ++ v ++ "\"", s)
  | .ident n, s => (n, s)
  | .binaryOp op l r, s =>
    let p1 := visit_expression l s
    let p2 := visit_expression r p1.2
    let p3 := new_temp p2.2
    (p3.1, emit (.binaryOp p3.1 p1.1 op p2.1) p3.2)
  | .unaryOp op e, s =>
    let p1 := visit_expression e s
    let p2 := new_temp p1.2
    (p2.1, emit (.unaryOp p2.1 op p1.1) p2.2)
  | .assignment target v, s =>
    let p1 := visit_expression v s
    (target, emit (.assign target p1.1) p1.2)
  | .functionCall f args, s =>
    let s1 := visit_params_reversed args s
    let p2 := new_temp s1
    (p2.1, emit (.call (some p2.1) f args.length) p2.2)

/-- The `for arg in reversed(node.arguments)` loop of `visit_function_call`:
the tail's parameters are emitted before the head's, so the head argument
(first in source order) is pushed last. -/
def visit_params_reversed : ExprList → GenState → GenState
  | .nil, s => s
  | .cons a rest, s =>
    let s1 := visit_params_reversed rest s
    let p2 := visit_expression a s1
    emit (.param p2.1) p2.2
end

/-- `visit_var_decl`: emits only when an initializer is present. -/
def visit_var_decl (name : String) (initializer : Option Expression)
    (s : GenState) : GenState :=
  match initializer with
  | none => s
  | some e =>
    let p1 := visit_expression e s
    emit (.assign name p1.1) p1.2

mutual
/-- `visit_statement` dispatch. -/
def visit_statement : Stmt → GenState → GenState
  | .varDecl _ name initializer, s => visit_var_decl name initializer s
  | .compound stmts, s => visit_stmt_list stmts s
  | .exprStmt none, s => s
  | .exprStmt (some e), s => (visit_expression e s).2
  | .returnStmt none, s => emit (.ret none) s
  | .returnStmt (some e), s =>
    let p1 := visit_expression e s
    emit (.ret (some p1.1)) p1.2
  | .ifStmt cond then_stmt els, s =>
    let p1 := visit_expression cond s
    (match els with
     | .some else_stmt =>
       let pElse := new_label p1.2
       let pEnd := new_label pElse.2
       let s4 := emit (.ifFalseGoto p1.1 pElse.1) pEnd.2
       let s5 := visit_statement then_stmt s4
       let s6 := emit (.goto pEnd.1) s5
       let s7 := emit (.label pElse.1) s6
       let s8 := visit_statement else_stmt s7
       emit (.label pEnd.1) s8
     | .none =>
       let pEnd := new_label p1.2
       let s3 := emit (.ifFalseGoto p1.1 pEnd.1) pEnd.2
       let s4 := visit_statement then_stmt s3
       emit (.label pEnd.1) s4)
  | .whileStmt cond body, s =>
    let pStart := new_label s
    let pEnd := new_label pStart.2
    let s3 := emit (.label pStart.1) pEnd.2
    let p4 := visit_expression cond s3
    let s5 := emit (.ifFalseGoto p4.1 pEnd.1) p4.2
    let s6 := visit_statement body s5
    let s7 := emit (.goto pStart.1) s6
    emit (.label pEnd.1) s7
  | .forStmt init cond update body, s =>
    let s0 := visit_opt_stmt init s
    let pStart := new_label s0
    let pEnd := new_label pStart.2
    let pUpd := new_label pEnd.2
    let s4 := emit (.label pStart.1) pUpd.2
    let s5 :=
      (match cond with
       | none => s4
       | some c =>
         let p5 := visit_expression c s4
         emit (.ifFalseGoto p5.1 pEnd.1) p5.2)
    let s6 := visit_statement body s5
    let s7 := emit (.label pUpd.1) s6
    let s8 :=
      (match update with
       | none => s7
       | some u => (visit_expression u s7).2)
    let s9 := emit (.goto pStart.1) s8
    emit (.label pEnd.1) s9

/-- `visit_for_stmt`'s init handling: a `VarDecl` init goes through
`visit_var_decl`, any other statement through `visit_statement`; both paths
coincide with `visit_statement`. -/
def visit_opt_stmt : OptStmt → GenState → GenState
  | .none, s => s
  | .some st, s => visit_statement st s

/-- `visit_compound_stmt`: visits the statements in order. -/
def visit_stmt_list : StmtList → GenState → GenState
  | .nil, s => s
  | .cons st rest, s => visit_stmt_list rest (visit_statement st s)
end

/-- `visit_function_decl`: only bodies produce code. -/
def visit_function_decl (name : String) (body : Option StmtList)
    (s : GenState) : GenState :=
  match body with
  | none => s
  | some stmts =>
    emit (.functionEnd name) (visit_stmt_list stmts (emit (.functionStart name) s))

/-- `visit_program` dispatches over the top-level declarations. -/
def visit_decl : Decl → GenState → GenState
  | .functionDecl _ name _ body, s => visit_function_decl name body s
  | .varDecl _ name initializer, s => visit_var_decl name initializer s

def visit_decls : List Decl → GenState → GenState
  | [], s => s
  | d :: ds, s => visit_decls ds (visit_decl d s)

def initGenState : GenState := ⟨[], 0, 0⟩

/-- `IntermediateCodeGenerator.generate` on a fresh generator instance. -/
def generate (p : Program) : GenState :=
  visit_decls p.declarations initGenState

/- ### Observations on TAC lists, used to state the IR claims. -/

/-- The result field of an instruction when that result came from a fresh
temporary allocation (`new_temp`): binary ops, unary ops and calls. -/
def tempResult : TACInstruction → Option String
  | .binaryOp r _ _ _ => some r
  | .unaryOp r _ _ => some r
  | .call r _ _ => r
  | _ => none

/-- The name defined by a label instruction. -/
def labelDef : TACInstruction → Option String
  | .label l => some l
  | _ => none

def tempResults (l : List TACInstruction) : List String := l.filterMap tempResult

def labelDefs (l : List TACInstruction) : List String := l.filterMap labelDef

/-- Every call instruction carries a result name. -/
def CallHasResult (i : TACInstruction) : Prop :=
  ∀ r f n, i = .call r f n → r ≠ none

/-- What one expression lowering contributes: the temp counter only grows, the
label counter is untouched, the new instructions' fresh-temp results are
exactly the consecutively allocated temporaries, no labels are defined, and
every emitted call carries a result. -/
def ExprStep (s s' : GenState) : Prop :=
  s.temp_counter ≤ s'.temp_counter ∧
  s'.label_counter = s.label_counter ∧
  ∃ Δ, s'.instructions = s.instructions ++ Δ ∧
    tempResults Δ =
      (List.range' s.temp_counter (s'.temp_counter - s.temp_counter)).map tName ∧
    labelDefs Δ = [] ∧
    ∀ i ∈ Δ, CallHasResult i

/-- What one statement (or declaration) lowering contributes: both counters
grow, fresh-temp results are exactly the consecutively allocated temporaries,
defined labels are a permutation of the labels allocated during the lowering
(each allocated label is defined exactly once), and every emitted call
carries a result. -/
def StmtStep (s s' : GenState) : Prop :=
  s.temp_counter ≤ s'.temp_counter ∧
  s.label_counter ≤ s'.label_counter ∧
  ∃ Δ, s'.instructions = s.instructions ++ Δ ∧
    tempResults Δ =
      (List.range' s.temp_counter (s'.temp_counter - s.temp_counter)).map tName ∧
    List.Perm (labelDefs Δ)
      ((List.range' s.label_counter (s'.label_counter - s.label_counter)).map lName) ∧
    ∀ i ∈ Δ, CallHasResult i

/-- Specification-side description of the argument-lowering block of a call
(`C6`): one `param` per argument in reverse source order, each immediately
preceded by the TAC lowering of that argument.  `ParamCode args s s' Δ` says
`Δ` is such a block, starting from state `s` and ending in state `s'`. -/
def ParamCode : ExprList → GenState → GenState → List TACInstruction → Prop
  | .nil, s, s', Δ => s' = s ∧ Δ = []
  | .cons a rest, s, s', Δ =>
    ∃ sR ΔR ΔA,
      ParamCode rest s sR ΔR ∧
      (visit_expression a sR).2.instructions = sR.instructions ++ ΔA ∧
      s' = emit (.param (visit_expression a sR).1) (visit_expression a sR).2 ∧
      Δ = ΔR ++ ΔA ++ [.param (visit_expression a sR).1]

/- ### Semantic analyzer (from `semantic_analyzer.py`)

`SymbolTable.scopes` is a Python list that grows at the end (the innermost
frame is `scopes[-1]`); we keep the innermost frame at the head of the Lean
list, which is the same stack.  A frame (a Python dict) becomes an
association list in insertion order. -/

structure Symbol where
  name : String
  type : String
  scope : String
deriving DecidableEq

structure SymbolTable where
  scopes : List (List (String × Symbol))
  current_scope : String
deriving DecidableEq

def initSymbolTable : SymbolTable := ⟨[[]], "global"⟩

def enter_scope (st : SymbolTable) (scope_name : String) : SymbolTable :=
  { scopes := [] :: st.scopes, current_scope := scope_name }

/-- `exit_scope`: pops only when more than one frame remains, and labels the
resulting current scope `"outer"`. -/
def exit_scope (st : SymbolTable) : SymbolTable :=
  if 1 < st.scopes.length then
    { scopes := st.scopes.tail, current_scope := "outer" }
  else st

/-- `SymbolTable.declare`: raises `SemanticError` when the name is already in
the innermost frame.  (The empty-stack case cannot occur: the table starts
with the global frame and `exit_scope` never empties it.) -/
def declare (st : SymbolTable) (name symbol_type : String) :
    Except String SymbolTable :=
  match st.scopes with
  | [] => .ok st
  | top :: rest =>
    if top.any (fun pr => pr.1 == name) then
      .error ("Variable '" ++ name ++ "' already declared in this scope")
    else
      .ok { st with
        scopes := (top ++ [(name, ⟨name, symbol_type, st.current_scope⟩)]) :: rest }

def lookup_frames : List (List (String × Symbol)) → String → Option Symbol
  | [], _ => none
  | fr :: rest, name =>
    match fr.find? (fun pr => pr.1 == name) with
    | some pr => some pr.2
    | none => lookup_frames rest name

/-- `SymbolTable.lookup`: innermost frame first. -/
def lookup (st : SymbolTable) (name : String) : Option Symbol :=
  lookup_frames st.scopes name

/-- `SymbolTable.get_all_symbols`: Python iterates the scopes list from the
global frame to the innermost one. -/
def get_all_symbols (st : SymbolTable) : List Symbol :=
  (st.scopes.reverse.map (fun fr => fr.map Prod.snd)).flatten

/-- Analyzer state.  `log` is a ghost history variable with no Python
counterpart: it receives a copy of every `Symbol` that `declare`
successfully records in the symbol table (the only way a symbol is ever
created), and nothing reads it, so the embedded behaviour is unchanged.
It makes "every Symbol ever recorded" statable after inner frames have
been popped. -/
structure AnalyzerState where
  symbol_table : SymbolTable
  current_function_return_type : Option String
  errors : List String
  log : List Symbol
deriving DecidableEq

def initAnalyzerState : AnalyzerState := ⟨initSymbolTable, none, [], []⟩

/-- `SemanticAnalyzer.error`: record a diagnostic. -/
def sem_error (msg : String) (st : AnalyzerState) : AnalyzerState :=
  { st with errors := st.errors ++ [msg] }

/-- The `try: declare … except SemanticError as e: self.error(str(e))`
pattern that guards every `declare` call in the source.  Whenever `declare`
does not raise, the ghost `log` also receives the symbol it builds:
`Symbol(name, symbol_type, current_scope)`.  (In the unreachable
empty-stack case the entry is logged without an insertion, making the log a
superset of the insertions; on every run from the initial state the stack
is never empty and the two coincide.) -/
def declareS (name symbol_type : String) (st : AnalyzerState) : AnalyzerState :=
  match declare st.symbol_table name symbol_type with
  | .ok tbl =>
    { st with
      symbol_table := tbl
      log := st.log ++ [⟨name, symbol_type, st.symbol_table.current_scope⟩] }
  | .error msg => sem_error msg st

def is_compatible_type (target_type source_type : String) : Bool :=
  if target_type == source_type then true
  else if (target_type == "int" || target_type == "float") &&
      (source_type == "int" || source_type == "float") then true
  else if source_type == "unknown" then true
  else false

mutual
/-- `SemanticAnalyzer.visit_expression`: returns the expression's type and
the state (expressions only read the symbol table and may append errors). -/
def sem_visit_expression : Expression → AnalyzerState → String × AnalyzerState
  | .intLit _, st => ("int", st)
  | .floatLit _, st => ("float", st)
  | .stringLit _, st => ("char*", st)
  | .ident n, st =>
    match lookup st.symbol_table n with
    | none => ("unknown", sem_error ("Undefined variable: '" ++ n ++ "'") st)
    | some sym => (sym.type, st)
  | .binaryOp op l r, st =>
    let p1 := sem_visit_expression l st
    let p2 := sem_visit_expression r p1.2
    -- both operands are always visited; only the resulting type depends on op
    (if op = "&&" ∨ op = "||" ∨ op = "==" ∨ op = "!=" ∨
        op = "<" ∨ op = ">" ∨ op = "<=" ∨ op = ">=" then "int"
     else if op = "+" ∨ op = "-" ∨ op = "*" ∨ op = "/" ∨ op = "%" then
       (if p1.1 = "float" ∨ p2.1 = "float" then "float" else "int")
     else "int", p2.2)
  | .unaryOp op e, st =>
    let p1 := sem_visit_expression e st
    -- `!` yields int; `-` and the fallthrough both yield the operand type
    (if op = "!" then "int" else p1.1, p1.2)
  | .assignment target v, st =>
    match lookup st.symbol_table target with
    | none =>
      ("unknown",
        sem_error ("Assignment to undefined variable: '" ++ target ++ "'") st)
    | some sym =>
      let p1 := sem_visit_expression v st
      if is_compatible_type sym.type p1.1 then (sym.type, p1.2)
      else
        (sym.type,
          sem_error ("Type mismatch in assignment to '" ++ target ++
            "': cannot assign " ++ p1.1 ++ " to " ++ sym.type) p1.2)
  | .functionCall n args, st =>
    match lookup st.symbol_table n with
    | none =>
      ("unknown", sem_error ("Call to undefined function: '" ++ n ++ "'") st)
    | some sym =>
      if sym.type.startsWith "function:" then
        -- `symbol.type.split(":", 1)[1]`: the text after the first colon
        (sym.type.drop 9, sem_visit_args args st)
      else
        ("unknown", sem_error ("'" ++ n ++ "' is not a function") st)

def sem_visit_args : ExprList → AnalyzerState → AnalyzerState
  | .nil, st => st
  | .cons a rest, st => sem_visit_args rest (sem_visit_expression a st).2
end

/-- `SemanticAnalyzer.visit_var_decl`. -/
def sem_visit_var_decl (var_type name : String) (initializer : Option Expression)
    (st : AnalyzerState) : AnalyzerState :=
  let st1 := declareS name var_type st
  match initializer with
  | none => st1
  | some e =>
    let p := sem_visit_expression e st1
    if is_compatible_type var_type p.1 then p.2
    else
      sem_error ("Type mismatch in initialization of '" ++ name ++
        "': cannot assign " ++ p.1 ++ " to " ++ var_type) p.2

/-- `SemanticAnalyzer.visit_return_stmt`. -/
def sem_visit_return (expression : Option Expression)
    (st : AnalyzerState) : AnalyzerState :=
  match st.current_function_return_type with
  | none => sem_error "Return statement outside of function" st
  | some rt =>
    match expression with
    | some e =>
      let p := sem_visit_expression e st
      if is_compatible_type rt p.1 then p.2
      else sem_error ("Return type mismatch: expected " ++ rt ++ ", got " ++ p.1) p.2
    | none =>
      if rt = "void" then st
      else sem_error ("Return statement must return a value of type " ++ rt) st

mutual
/-- `SemanticAnalyzer.visit_statement`: a nested `CompoundStmt` opens a
`"block"` frame, a `for` statement opens a `"for"` frame. -/
def sem_visit_statement : Stmt → AnalyzerState → AnalyzerState
  | .varDecl vt n i, st => sem_visit_var_decl vt n i st
  | .compound stmts, st =>
    let st1 := { st with symbol_table := enter_scope st.symbol_table "block" }
    let st2 := sem_visit_stmt_list stmts st1
    { st2 with symbol_table := exit_scope st2.symbol_table }
  | .exprStmt none, st => st
  | .exprStmt (some e), st => (sem_visit_expression e st).2
  | .returnStmt e, st => sem_visit_return e st
  | .ifStmt c t e, st =>
    let st1 := (sem_visit_expression c st).2
    let st2 := sem_visit_statement t st1
    sem_visit_opt_stmt e st2
  | .whileStmt c b, st =>
    let st1 := (sem_visit_expression c st).2
    sem_visit_statement b st1
  | .forStmt init c u b, st =>
    let st1 := { st with symbol_table := enter_scope st.symbol_table "for" }
    let st2 := sem_visit_opt_stmt init st1
    let st3 :=
      (match c with
       | none => st2
       | some ce => (sem_visit_expression ce st2).2)
    let st4 :=
      (match u with
       | none => st3
       | some ue => (sem_visit_expression ue st3).2)
    let st5 := sem_visit_statement b st4
    { st5 with symbol_table := exit_scope st5.symbol_table }

def sem_visit_opt_stmt : OptStmt → AnalyzerState → AnalyzerState
  | .none, st => st
  | .some s, st => sem_visit_statement s st

def sem_visit_stmt_list : StmtList → AnalyzerState → AnalyzerState
  | .nil, st => st
  | .cons s rest, st => sem_visit_stmt_list rest (sem_visit_statement s st)
end

/-- `SemanticAnalyzer.visit_function_decl`: declares the function in the
current scope, then (if a body is present) enters a `function:<name>` frame,
declares the parameters into it, walks the body and exits. -/
def sem_visit_function_decl (return_type name : String)
    (parameters : List (String × String)) (body : Option StmtList)
    (st : AnalyzerState) : AnalyzerState :=
  let st1 := declareS name ("function:" ++ return_type) st
  match body with
  | none => st1
  | some stmts =>
    let st2 := { st1 with
      symbol_table := enter_scope st1.symbol_table ("function:" ++ name),
      current_function_return_type := some return_type }
    let st3 := parameters.foldl (fun acc pr => declareS pr.2 pr.1 acc) st2
    let st4 := sem_visit_stmt_list stmts st3
    { st4 with
      symbol_table := exit_scope st4.symbol_table,
      current_function_return_type := none }

def sem_visit_decl : Decl → AnalyzerState → AnalyzerState
  | .functionDecl rt n ps b, st => sem_visit_function_decl rt n ps b st
  | .varDecl vt n i, st => sem_visit_var_decl vt n i st

def sem_visit_decls : List Decl → AnalyzerState → AnalyzerState
  | [], st => st
  | d :: ds, st => sem_visit_decls ds (sem_visit_decl d st)

/-- The full walk of `SemanticAnalyzer.visit_program` on a fresh analyzer. -/
def sem_visit_program (p : Program) : AnalyzerState :=
  sem_visit_decls p.declarations initAnalyzerState

/-- `SemanticAnalyzer.analyze`: run the walk, then raise `SemanticError`
once iff diagnostics were collected.  (The `try/except` around the walk in
the source is dead code: every `declare` call site catches `SemanticError`
locally, and nothing else raises during the walk.) -/
def analyze (p : Program) : Except String AnalyzerState :=
  let st := sem_visit_program p
  if st.errors ≠ [] then .error "Semantic analysis failed" else .ok st

/-- The closed set of scope labels named by the specification. -/
def ScopeLabelOK (sc : String) : Prop :=
  sc = "global" ∨ sc = "for" ∨ sc = "block" ∨ ∃ n, sc = "function:" ++ n

/-- The scope labels the code can actually attach: the specified set plus
`"outer"` (the label `exit_scope` leaves behind). -/
def ScopeLabelOKExt (sc : String) : Prop :=
  ScopeLabelOK sc ∨ sc = "outer"

/-- All recorded symbols and the current-scope label are well-labelled. -/
def ScopesOK (tbl : SymbolTable) : Prop :=
  (∀ fr ∈ tbl.scopes, ∀ pr ∈ fr, ScopeLabelOKExt (Prod.snd pr).scope) ∧
  ScopeLabelOKExt tbl.current_scope

/-- What one analyzer visit contributes: errors are only appended, the scope
stack depth is restored (when the stack is nonempty, as it always is from
the initial state), well-labelled scope data stays well-labelled, and —
starting from a well-labelled table — every symbol the visit appends to the
ghost declaration log is well-labelled. -/
def StInv (st st' : AnalyzerState) : Prop :=
  (∃ l, st'.errors = st.errors ++ l) ∧
  (1 ≤ st.symbol_table.scopes.length →
    st'.symbol_table.scopes.length = st.symbol_table.scopes.length) ∧
  (ScopesOK st.symbol_table → ScopesOK st'.symbol_table) ∧
  (ScopesOK st.symbol_table →
    ∃ l2, st'.log = st.log ++ l2 ∧ ∀ sym ∈ l2, ScopeLabelOKExt sym.scope)

/- ### Peephole pass (from `code_generator.py`, CodeGenerator.optimize) -/

/-- Python `str.split()` with no arguments: split on whitespace runs,
dropping empty pieces. -/
def splitWs : List Char → List (List Char)
  | [] => []
  | c :: cs =>
    if h : c.isWhitespace then splitWs cs
    else
      ((c :: cs).takeWhile (fun d => !d.isWhitespace)) ::
        splitWs ((c :: cs).dropWhile (fun d => !d.isWhitespace))
termination_by l => l.length
decreasing_by
  · simp
  · have hlen : ((c :: cs).dropWhile (fun d => !d.isWhitespace)).length ≤ cs.length := by
      rw [List.dropWhile_cons_of_pos (by simpa using h)]
      exact (List.dropWhile_sublist _).length_le
    simp
    omega

def pySplit (s : String) : List String := (splitWs s.data).map (fun l => ⟨l⟩)

/-- Python `"MOV" in line`: substring containment. -/
def containsSub (needle hay : List Char) : Bool :=
  decide (needle <:+: hay)

/-- Python `str.rstrip(',')`: remove all trailing commas. -/
def rstripComma (s : String) : String :=
  ⟨(s.data.reverse.dropWhile (fun c => c = ',')).reverse⟩

/-- The redundant-move test of the forward walk in `optimize`: the line
contains `"MOV"`, splits into at least three fields, and field 2 (with any
trailing comma stripped) equals field 3. -/
def isRedundantMov (line : String) : Bool :=
  containsSub "MOV".data line.data &&
    (match pySplit line with
     | _ :: p1 :: p2 :: _ => if rstripComma p1 = p2 then true else false
     | _ => false)

/-- `CodeGenerator.optimize`: a single forward walk that drops redundant
`MOV r, r` lines and counts the eliminations.  (The LOAD/MOV window
inspection in the source only `pass`es and changes nothing.) -/
def optimize : List String → List String × Nat
  | [] => ([], 0)
  | line :: rest =>
    let p := optimize rest
    if isRedundantMov line then (p.1, p.2 + 1) else (line :: p.1, p.2)

/- ### Lexer (from `lexer.py`)

The scanner state (`position`, `line`, `column`) becomes explicit recursion
over the remaining character list with line/column parameters.  Character
class checks (`isdigit`, `isalpha`, `isalnum`) are modelled with Lean's
ASCII-compatible character predicates. -/

inductive TokenType where
  | INT | FLOAT | CHAR | IF | ELSE | WHILE | FOR | RETURN | VOID
  | IDENTIFIER | INTEGER_LITERAL | FLOAT_LITERAL | STRING_LITERAL
  | PLUS | MINUS | MULTIPLY | DIVIDE | MODULO | ASSIGN | EQUAL | NOT_EQUAL
  | LESS_THAN | GREATER_THAN | LESS_EQUAL | GREATER_EQUAL
  | LOGICAL_AND | LOGICAL_OR | LOGICAL_NOT
  | SEMICOLON | COMMA | LPAREN | RPAREN | LBRACE | RBRACE | LBRACKET | RBRACKET
  | EOF | NEWLINE
deriving DecidableEq

structure Token where
  type : TokenType
  value : String
  line : Nat
  column : Nat
deriving DecidableEq

/-- `Lexer.error` raises with the current line, column and a message. -/
structure LexErr where
  line : Nat
  column : Nat
  message : String
deriving DecidableEq

/-- The `KEYWORDS` table consulted by `read_identifier`. -/
def keywordType (s : String) : TokenType :=
  if s = "int" then .INT
  else if s = "float" then .FLOAT
  else if s = "char" then .CHAR
  else if s = "if" then .IF
  else if s = "else" then .ELSE
  else if s = "while" then .WHILE
  else if s = "for" then .FOR
  else if s = "return" then .RETURN
  else if s = "void" then .VOID
  else .IDENTIFIER

/-- `Lexer.advance` position update: newline bumps the line and resets the
column, anything else bumps the column. -/
def advancePos (c : Char) (line col : Nat) : Nat × Nat :=
  if c = '\n' then (line + 1, 1) else (line, col + 1)

def isSpaceChar (c : Char) : Bool :=
  c = ' ' || c = '\t' || c = '\r' || c = '\n'

/-- `skip_whitespace`. -/
def skip_whitespace : List Char → Nat → Nat → List Char × Nat × Nat
  | [], line, col => ([], line, col)
  | c :: cs, line, col =>
    if isSpaceChar c then
      let p := advancePos c line col
      skip_whitespace cs p.1 p.2
    else (c :: cs, line, col)

/-- The single-line branch of `skip_comment`: consume to the newline, then
one more `advance` (a no-op at end of input). -/
def skip_line_comment : List Char → Nat → Nat → List Char × Nat × Nat
  | [], line, col => ([], line, col)
  | c :: cs, line, col =>
    if c = '\n' then (cs, line + 1, 1)
    else skip_line_comment cs line (col + 1)

/-- The multi-line branch of `skip_comment`, after `/*` was consumed: scan
for `*/`; an unterminated block comment runs to end of input silently. -/
def skip_block_comment : List Char → Nat → Nat → List Char × Nat × Nat
  | [], line, col => ([], line, col)
  | c :: cs, line, col =>
    if c = '*' ∧ cs.head? = some '/' then (cs.tail, line, col + 2)
    else
      let p := advancePos c line col
      skip_block_comment cs p.1 p.2

/-- `skip_comment`. -/
def skip_comment (l : List Char) (line col : Nat) : List Char × Nat × Nat :=
  match l with
  | '/' :: '/' :: _ => skip_line_comment l line col
  | '/' :: '*' :: rest => skip_block_comment rest line (col + 2)
  | _ => (l, line, col)

/-- The scan loop of `read_number`: maximal run of digits and dots, erroring
on a second dot.  Returns the collected characters, the rest, the final
position and the float flag. -/
def read_number_loop : List Char → Nat → Nat → Bool → List Char →
    Except LexErr (List Char × List Char × Nat × Nat × Bool)
  | [], line, col, is_float, acc => .ok (acc.reverse, [], line, col, is_float)
  | c :: cs, line, col, is_float, acc =>
    if c.isDigit ∨ c = '.' then
      if c = '.' then
        if is_float then .error ⟨line, col, "Invalid number format"⟩
        else read_number_loop cs line (col + 1) true (c :: acc)
      else read_number_loop cs line (col + 1) is_float (c :: acc)
    else .ok (acc.reverse, c :: cs, line, col, is_float)

/-- `read_number`: the token keeps the start position; the presence of a dot
selects the float kind. -/
def read_number (l : List Char) (line col : Nat) :
    Except LexErr (Token × List Char × Nat × Nat) :=
  match read_number_loop l line col false [] with
  | .error e => .error e
  | .ok (num, rest, l2, c2, is_float) =>
    .ok (⟨if is_float then .FLOAT_LITERAL else .INTEGER_LITERAL, ⟨num⟩, line, col⟩,
      rest, l2, c2)

/-- The scan loop of `read_identifier`: maximal run of alphanumerics and
underscores. -/
def read_identifier_loop : List Char → Nat → Nat → List Char →
    List Char × List Char × Nat × Nat
  | [], line, col, acc => (acc.reverse, [], line, col)
  | c :: cs, line, col, acc =>
    if c.isAlphanum ∨ c = '_' then read_identifier_loop cs line (col + 1) (c :: acc)
    else (acc.reverse, c :: cs, line, col)

/-- `read_identifier`: keyword lookup falls back to `IDENTIFIER`. -/
def read_identifier (l : List Char) (line col : Nat) :
    Token × List Char × Nat × Nat :=
  let r := read_identifier_loop l line col []
  (⟨keywordType ⟨r.1⟩, ⟨r.1⟩, line, col⟩, r.2.1, r.2.2.1, r.2.2.2)

/-- The scan loop of `read_string` after the opening quote: `\"` becomes an
embedded quote, end of input is an unterminated-string error, the closing
quote is consumed. -/
def read_string_loop : List Char → Nat → Nat → List Char →
    Except LexErr (List Char × List Char × Nat × Nat)
  | [], line, col, _ => .error ⟨line, col, "Unterminated string literal"⟩
  | c :: cs, line, col, acc =>
    if c = '"' then .ok (acc.reverse, cs, line, col + 1)
    else if c = '\\' ∧ cs.head? = some '"' then
      read_string_loop cs.tail line (col + 2) ('"' :: acc)
    else
      let p := advancePos c line col
      read_string_loop cs p.1 p.2 (c :: acc)
termination_by l => l.length
decreasing_by
  all_goals (simp only [List.length_cons, List.length_tail]; omega)

/-- `read_string`: consume the opening quote, then scan. -/
def read_string (l : List Char) (line col : Nat) :
    Except LexErr (Token × List Char × Nat × Nat) :=
  match l with
  | [] => .error ⟨line, col, "Unterminated string literal"⟩
  | c :: cs =>
    let p := advancePos c line col
    match read_string_loop cs p.1 p.2 [] with
    | .error e => .error e
    | .ok (v, rest, l2, c2) => .ok (⟨.STRING_LITERAL, ⟨v⟩, line, col⟩, rest, l2, c2)

/-- The `two_char_tokens` table. -/
def two_char_type (c : Char) (n : Option Char) : Option TokenType :=
  match c, n with
  | '=', some '=' => some .EQUAL
  | '!', some '=' => some .NOT_EQUAL
  | '<', some '=' => some .LESS_EQUAL
  | '>', some '=' => some .GREATER_EQUAL
  | '&', some '&' => some .LOGICAL_AND
  | '|', some '|' => some .LOGICAL_OR
  | _, _ => none

/-- The `single_char_tokens` dictionary of `Lexer.__init__`. -/
def single_char_tokens : List (Char × TokenType) :=
  [('+', .PLUS), ('-', .MINUS), ('*', .MULTIPLY), ('/', .DIVIDE),
   ('%', .MODULO), ('=', .ASSIGN), ('<', .LESS_THAN), ('>', .GREATER_THAN),
   ('!', .LOGICAL_NOT), (';', .SEMICOLON), (',', .COMMA),
   ('(', .LPAREN), (')', .RPAREN), ('{', .LBRACE), ('}', .RBRACE),
   ('[', .LBRACKET), (']', .RBRACKET)]

/-- Lookup in the `single_char_tokens` table (`char in self.single_char_tokens`). -/
def single_char_type (c : Char) : Option TokenType :=
  (single_char_tokens.find? (fun p => p.1 == c)).map (fun p => p.2)

/- Progress lemmas needed to justify termination of the main scan loop. -/

theorem skip_whitespace_length_le : ∀ (l : List Char) (li co : Nat),
    (skip_whitespace l li co).1.length ≤ l.length
  | [], _, _ => Nat.le_refl _
  | c :: cs, li, co => by
    rw [skip_whitespace]
    by_cases h : isSpaceChar c = true
    · simp only [h, if_true]
      have := skip_whitespace_length_le cs (advancePos c li co).1 (advancePos c li co).2
      simp only [List.length_cons]
      omega
    · simp [h]

theorem skip_line_comment_length_le : ∀ (l : List Char) (li co : Nat),
    (skip_line_comment l li co).1.length ≤ l.length
  | [], _, _ => Nat.le_refl _
  | c :: cs, li, co => by
    rw [skip_line_comment]
    by_cases h : c = '\n'
    · simp [h]
    · simp only [h, if_false]
      have := skip_line_comment_length_le cs li (co + 1)
      simp only [List.length_cons]
      omega

theorem skip_block_comment_length_le : ∀ (l : List Char) (li co : Nat),
    (skip_block_comment l li co).1.length ≤ l.length
  | [], _, _ => Nat.le_refl _
  | c :: cs, li, co => by
    rw [skip_block_comment]
    by_cases h : c = '*' ∧ cs.head? = some '/'
    · rw [if_pos h]
      simp only [List.length_cons]
      have : cs.tail.length ≤ cs.length := by cases cs <;> simp
      omega
    · rw [if_neg h]
      have := skip_block_comment_length_le cs (advancePos c li co).1 (advancePos c li co).2
      simp only [List.length_cons]
      omega

theorem skip_comment_length_lt (c : Char) (rest : List Char) (li co : Nat)
    (hc : c = '/') (hr : rest.head? = some '/' ∨ rest.head? = some '*') :
    (skip_comment (c :: rest) li co).1.length < (c :: rest).length := by
  subst hc
  rcases hr with h | h
  · obtain ⟨t, rfl⟩ : ∃ t, rest = '/' :: t := by
      cases rest with
      | nil => cases h
      | cons a t =>
        simp only [List.head?] at h
        exact ⟨t, by rw [Option.some.inj h]⟩
    show (skip_line_comment ('/' :: '/' :: t) li co).1.length < _
    rw [skip_line_comment]
    simp only [if_neg (by decide : ¬ (('/' : Char) = '\n'))]
    have := skip_line_comment_length_le ('/' :: t) li (co + 1)
    simp only [List.length_cons] at *
    omega
  · obtain ⟨t, rfl⟩ : ∃ t, rest = '*' :: t := by
      cases rest with
      | nil => cases h
      | cons a t =>
        simp only [List.head?] at h
        exact ⟨t, by rw [Option.some.inj h]⟩
    show (skip_block_comment t li (co + 2)).1.length < _
    have := skip_block_comment_length_le t li (co + 2)
    simp only [List.length_cons]
    omega

theorem read_number_loop_rest_le : ∀ (l : List Char) (li co : Nat) (fl : Bool)
    (acc v r : List Char) (l2 c2 : Nat) (fl2 : Bool),
    read_number_loop l li co fl acc = .ok (v, r, l2, c2, fl2) → r.length ≤ l.length
  | [], li, co, fl, acc, v, r, l2, c2, fl2 => by
    intro h
    rw [read_number_loop] at h
    cases h
    simp
  | c :: cs, li, co, fl, acc, v, r, l2, c2, fl2 => by
    intro h
    rw [read_number_loop] at h
    split_ifs at h with h1 h2 h3
    · have := read_number_loop_rest_le cs li (co + 1) true (c :: acc) v r l2 c2 fl2 h
      simp only [List.length_cons]
      omega
    · have := read_number_loop_rest_le cs li (co + 1) fl (c :: acc) v r l2 c2 fl2 h
      simp only [List.length_cons]
      omega
    · cases h
      simp

theorem read_number_rest_lt {c : Char} {cs : List Char} {li co : Nat}
    {tok : Token} {r : List Char} {l2 c2 : Nat}
    (hdg : c.isDigit)
    (h : read_number (c :: cs) li co = .ok (tok, r, l2, c2)) :
    r.length < (c :: cs).length := by
  have hnd : ¬ c = '.' := by
    intro hc
    subst hc
    simp [Char.isDigit] at hdg
  unfold read_number at h
  rw [read_number_loop] at h
  rw [if_pos (Or.inl hdg), if_neg hnd] at h
  cases hr : read_number_loop cs li (co + 1) false [c] with
  | error e => rw [hr] at h; cases h
  | ok out =>
    obtain ⟨v, r2, l3, c3, fl2⟩ := out
    have hle := read_number_loop_rest_le cs li (co + 1) false [c] v r2 l3 c3 fl2 hr
    rw [hr] at h
    cases h
    simp only [List.length_cons]
    omega

theorem read_identifier_loop_rest_le : ∀ (l : List Char) (li co : Nat) (acc : List Char),
    (read_identifier_loop l li co acc).2.1.length ≤ l.length
  | [], _, _, _ => by simp [read_identifier_loop]
  | c :: cs, li, co, acc => by
    rw [read_identifier_loop]
    by_cases h : c.isAlphanum ∨ c = '_'
    · simp only [h, if_true]
      have := read_identifier_loop_rest_le cs li (co + 1) (c :: acc)
      simp only [List.length_cons]
      omega
    · simp [h]

theorem read_identifier_rest_lt (c : Char) (cs : List Char) (li co : Nat)
    (hal : c.isAlpha ∨ c = '_') :
    (read_identifier (c :: cs) li co).2.1.length < (c :: cs).length := by
  have h : c.isAlphanum ∨ c = '_' := by
    rcases hal with h | h
    · exact Or.inl (by simp [Char.isAlphanum, h])
    · exact Or.inr h
  unfold read_identifier
  rw [read_identifier_loop, if_pos h]
  have := read_identifier_loop_rest_le cs li (co + 1) [c]
  simp only [List.length_cons]
  omega

theorem read_string_loop_rest_le : ∀ (l : List Char) (li co : Nat)
    (acc v r : List Char) (l2 c2 : Nat),
    read_string_loop l li co acc = .ok (v, r, l2, c2) → r.length ≤ l.length
  | [], li, co, acc, v, r, l2, c2 => by
    intro h
    rw [read_string_loop] at h
    cases h
  | c :: cs, li, co, acc, v, r, l2, c2 => by
    intro h
    rw [read_string_loop] at h
    split_ifs at h with h1 h2
    · cases h
      simp
    · have := read_string_loop_rest_le cs.tail li (co + 2) ('"' :: acc) v r l2 c2 h
      have ht : cs.tail.length ≤ cs.length := by cases cs <;> simp
      simp only [List.length_cons]
      omega
    · have := read_string_loop_rest_le cs (advancePos c li co).1 (advancePos c li co).2
        (c :: acc) v r l2 c2 h
      simp only [List.length_cons]
      omega
termination_by l => l.length
decreasing_by
  all_goals (simp only [List.length_cons, List.length_tail]; omega)

theorem read_string_rest_lt {c : Char} {cs : List Char} {li co : Nat}
    {tok : Token} {r : List Char} {l2 c2 : Nat}
    (h : read_string (c :: cs) li co = .ok (tok, r, l2, c2)) :
    r.length < (c :: cs).length := by
  simp only [read_string] at h
  cases hr : read_string_loop cs (advancePos c li co).1 (advancePos c li co).2 [] with
  | error e =>
    rw [hr] at h
    simp at h
  | ok out =>
    obtain ⟨v, r2, l3, c3⟩ := out
    have hle := read_string_loop_rest_le cs (advancePos c li co).1 (advancePos c li co).2
      [] v r2 l3 c3 hr
    rw [hr] at h
    simp only at h
    cases h
    simp only [List.length_cons]
    omega

/-- Python `char + (next_char if next_char else '')`. -/
def twoCharValue (c : Char) (n : Option Char) : String :=
  match n with
  | some d => ⟨[c, d]⟩
  | none => ⟨[c]⟩

/-- `Lexer.tokenize`: the main scanning loop, with the accumulated token
list made explicit.  Each iteration skips whitespace, then dispatches on the
current character exactly as the source does, and the `EOF` token is
appended once, at the end. -/
def tokenize_loop (l : List Char) (line col : Nat) (acc : List Token) :
    Except LexErr (List Token) :=
  -- the `while current_char()` guard coincides with the empty case of the
  -- whitespace skip: an empty remainder appends the EOF token either way
  match hsw : skip_whitespace l line col with
    | ([], l2, c2) => .ok (acc ++ [⟨.EOF, "", l2, c2⟩])
    | (c :: rest, l2, c2) =>
      if hcm : c = '/' ∧ (rest.head? = some '/' ∨ rest.head? = some '*') then
        let sc := skip_comment (c :: rest) l2 c2
        tokenize_loop sc.1 sc.2.1 sc.2.2 acc
      else if hdg : c.isDigit then
        match hrn : read_number (c :: rest) l2 c2 with
        | .error e => .error e
        | .ok (tok, rest2, l3, c3) => tokenize_loop rest2 l3 c3 (acc ++ [tok])
      else if hal : c.isAlpha ∨ c = '_' then
        let r := read_identifier (c :: rest) l2 c2
        tokenize_loop r.2.1 r.2.2.1 r.2.2.2 (acc ++ [r.1])
      else if hq : c = '"' then
        match hrs : read_string (c :: rest) l2 c2 with
        | .error e => .error e
        | .ok (tok, rest2, l3, c3) => tokenize_loop rest2 l3 c3 (acc ++ [tok])
      else
        match two_char_type c rest.head? with
        | some tt =>
          tokenize_loop rest.tail l2 (c2 + 2)
            (acc ++ [⟨tt, twoCharValue c rest.head?, l2, c2⟩])
        | none =>
          match single_char_type c with
          | some tt =>
            let p := advancePos c l2 c2
            tokenize_loop rest p.1 p.2 (acc ++ [⟨tt, ⟨[c]⟩, l2, c2⟩])
          | none =>
            .error ⟨l2, c2, "Unexpected character: \x27" ++ ⟨[c]⟩ ++ "\x27"⟩
termination_by l.length
decreasing_by
  all_goals
    have hle : (c :: rest).length ≤ l.length := by
      have h0 := skip_whitespace_length_le l line col
      rw [hsw] at h0
      exact h0
  · exact Nat.lt_of_lt_of_le (skip_comment_length_lt c rest l2 c2 hcm.1 hcm.2) hle
  · exact Nat.lt_of_lt_of_le (read_number_rest_lt hdg hrn) hle
  · exact Nat.lt_of_lt_of_le (read_identifier_rest_lt c rest l2 c2 hal) hle
  · exact Nat.lt_of_lt_of_le (read_string_rest_lt hrs) hle
  · refine Nat.lt_of_lt_of_le ?_ hle
    have : rest.tail.length ≤ rest.length := by cases rest <;> simp
    simp only [List.length_cons]
    omega
  · refine Nat.lt_of_lt_of_le ?_ hle
    simp

/-- `Lexer.tokenize` on a fresh lexer (line 1, column 1, no tokens). -/
def tokenize (source : List Char) : Except LexErr (List Token) :=
  tokenize_loop source 1 1 []

/-- The three lexical error messages the scanner can produce: malformed
number (second dot), unterminated string literal, unexpected character. -/
def LexMsgOK (m : String) : Prop :=
  m = "Invalid number format" ∨ m = "Unterminated string literal" ∨
  ∃ c : Char, m = "Unexpected character: \x27" ++ ⟨[c]⟩ ++ "\x27"

/- ### Parser (parser.py), expression level

`Parser` keeps `tokens`, `position` and `current_token = tokens[position]`.
`tokenize` always returns a non-empty `EOF`-terminated list and `advance`
never moves past the last token, so `current_token` is always in range on
such inputs and the `getD` default is never consulted.  Python's unbounded
recursion is modeled with an explicit fuel argument: each recursive call
runs on one unit less, and exhausted fuel yields a distinguished
"recursion limit" error that the Python code (which simply recurses) never
reports.  The recursive knot `parse_primary -> parse_expression` (parens,
call arguments) is tied by passing the one-level-smaller `parse_expression`
down the precedence chain as the function argument `pe`. -/

structure PState where
  tokens : List Token
  position : Nat
deriving DecidableEq

def pcur (st : PState) : Token :=
  st.tokens.getD st.position ⟨.EOF, "", 0, 0⟩

/-- `Parser.advance`: move only while not already at the last token. -/
def padvance (st : PState) : PState :=
  if st.position < st.tokens.length - 1 then
    { tokens := st.tokens, position := st.position + 1 }
  else st

/-- `Parser.error` raises `SyntaxError` carrying the current token's line
and column and a message (rendered through an f-string in the source). -/
structure ParseErr where
  line : Nat
  column : Nat
  message : String
deriving DecidableEq

def perror (st : PState) (msg : String) : ParseErr :=
  ⟨(pcur st).line, (pcur st).column, msg⟩

/-- Fuel-exhaustion marker; has no Python counterpart. -/
def fuelErr (st : PState) : ParseErr := perror st "recursion limit"

/-- `TokenType.name` of the Python enum, used in `expect` messages. -/
def tokenTypeName : TokenType → String
  | .INT => "INT"
  | .FLOAT => "FLOAT"
  | .CHAR => "CHAR"
  | .IF => "IF"
  | .ELSE => "ELSE"
  | .WHILE => "WHILE"
  | .FOR => "FOR"
  | .RETURN => "RETURN"
  | .VOID => "VOID"
  | .IDENTIFIER => "IDENTIFIER"
  | .INTEGER_LITERAL => "INTEGER_LITERAL"
  | .FLOAT_LITERAL => "FLOAT_LITERAL"
  | .STRING_LITERAL => "STRING_LITERAL"
  | .PLUS => "PLUS"
  | .MINUS => "MINUS"
  | .MULTIPLY => "MULTIPLY"
  | .DIVIDE => "DIVIDE"
  | .MODULO => "MODULO"
  | .ASSIGN => "ASSIGN"
  | .EQUAL => "EQUAL"
  | .NOT_EQUAL => "NOT_EQUAL"
  | .LESS_THAN => "LESS_THAN"
  | .GREATER_THAN => "GREATER_THAN"
  | .LESS_EQUAL => "LESS_EQUAL"
  | .GREATER_EQUAL => "GREATER_EQUAL"
  | .LOGICAL_AND => "LOGICAL_AND"
  | .LOGICAL_OR => "LOGICAL_OR"
  | .LOGICAL_NOT => "LOGICAL_NOT"
  | .SEMICOLON => "SEMICOLON"
  | .COMMA => "COMMA"
  | .LPAREN => "LPAREN"
  | .RPAREN => "RPAREN"
  | .LBRACE => "LBRACE"
  | .RBRACE => "RBRACE"
  | .LBRACKET => "LBRACKET"
  | .RBRACKET => "RBRACKET"
  | .EOF => "EOF"
  | .NEWLINE => "NEWLINE"

/-- Python `int` on the all-digit literal strings the lexer produces:
the big-endian decimal fold. -/
def decOfString (s : String) : Nat :=
  s.data.foldl (fun n c => n * 10 + charDigit c) 0

/-- `Parser.expect`. -/
def pexpect (tt : TokenType) (st : PState) : Except ParseErr (Token × PState) :=
  if (pcur st).type ≠ tt then
    .error (perror st
      ("Expected " ++ tokenTypeName tt ++ ", got " ++ tokenTypeName (pcur st).type))
  else .ok (pcur st, padvance st)

/-- `Parser.parse_primary`; `pe` is the recursive `parse_expression` used
for parenthesized expressions.  Lexer integer literals are decimal digit
strings, on which Python's `int` agrees with `String.toNat?`; floats keep
their literal text. -/
def parse_primary_f (pe : PState → Except ParseErr (Expression × PState))
    (st : PState) : Except ParseErr (Expression × PState) :=
  if (pcur st).type = TokenType.INTEGER_LITERAL then
    .ok (.intLit (Int.ofNat (decOfString (pcur st).value)), padvance st)
  else if (pcur st).type = TokenType.FLOAT_LITERAL then
    .ok (.floatLit (pcur st).value, padvance st)
  else if (pcur st).type = TokenType.STRING_LITERAL then
    .ok (.stringLit (pcur st).value, padvance st)
  else if (pcur st).type = TokenType.IDENTIFIER then
    .ok (.ident (pcur st).value, padvance st)
  else if (pcur st).type = TokenType.LPAREN then
    match pe (padvance st) with
    | .error e => .error e
    | .ok (expr, st2) =>
      match pexpect TokenType.RPAREN st2 with
      | .error e => .error e
      | .ok (_, st3) => .ok (expr, st3)
  else .error (perror st ("Unexpected token: " ++ tokenTypeName (pcur st).type))

/-- The `while COMMA` loop collecting the remaining call arguments in
`parse_postfix`. -/
def parse_args_rest (pe : PState → Except ParseErr (Expression × PState)) :
    Nat → PState → Except ParseErr (ExprList × PState)
  | 0, st =>
    if (pcur st).type = TokenType.COMMA then .error (fuelErr st)
    else .ok (ExprList.nil, st)
  | fuel+1, st =>
    if (pcur st).type = TokenType.COMMA then
      match pe (padvance st) with
      | .error e => .error e
      | .ok (a, st2) =>
        match parse_args_rest pe fuel st2 with
        | .error e => .error e
        | .ok (rest, st3) => .ok (ExprList.cons a rest, st3)
    else .ok (ExprList.nil, st)

/-- `Parser.parse_postfix`: primary, optionally followed by a call. -/
def parse_postfix_f (pe : PState → Except ParseErr (Expression × PState))
    (fuel : Nat) (st : PState) : Except ParseErr (Expression × PState) :=
  match parse_primary_f pe st with
  | .error e => .error e
  | .ok (expr, st1) =>
    if (pcur st1).type = TokenType.LPAREN then
      match expr with
      | .ident name =>
        match
          ((if (pcur (padvance st1)).type ≠ TokenType.RPAREN then
            match pe (padvance st1) with
            | .error e => .error e
            | .ok (a1, st3) =>
              match parse_args_rest pe fuel st3 with
              | .error e => .error e
              | .ok (rest, st4) => .ok (ExprList.cons a1 rest, st4)
          else .ok (ExprList.nil, padvance st1)) :
            Except ParseErr (ExprList × PState)) with
        | .error e => .error e
        | .ok (args, st5) =>
          match pexpect TokenType.RPAREN st5 with
          | .error e => .error e
          | .ok (_, st6) => .ok (.functionCall name args, st6)
      | _ => .error (perror st1 "Invalid function call")
    else .ok (expr, st1)

/-- `Parser.parse_unary`; `ppost` is the postfix level below it. -/
def parse_unary_f (ppost : PState → Except ParseErr (Expression × PState)) :
    Nat → PState → Except ParseErr (Expression × PState)
  | 0, st =>
    if (pcur st).type = TokenType.MINUS ∨ (pcur st).type = TokenType.LOGICAL_NOT then
      .error (fuelErr st)
    else ppost st
  | fuel+1, st =>
    if (pcur st).type = TokenType.MINUS ∨ (pcur st).type = TokenType.LOGICAL_NOT then
      match parse_unary_f ppost fuel (padvance st) with
      | .error e => .error e
      | .ok (operand, st2) => .ok (.unaryOp (pcur st).value operand, st2)
    else ppost st

/-- The `while`-loop shared by every binary precedence level: as long as
the current token's type is in `ops`, consume the operator, parse the next
lower level `next`, and fold a left-nested `BinaryOp`. -/
def parse_bin_rest (next : PState → Except ParseErr (Expression × PState))
    (ops : List TokenType) :
    Nat → Expression → PState → Except ParseErr (Expression × PState)
  | 0, left, st =>
    if (pcur st).type ∈ ops then .error (fuelErr st) else .ok (left, st)
  | fuel+1, left, st =>
    if (pcur st).type ∈ ops then
      match next (padvance st) with
      | .error e => .error e
      | .ok (right, st2) =>
        parse_bin_rest next ops fuel (.binaryOp (pcur st).value left right) st2
    else .ok (left, st)

/-- One binary precedence level: parse the level below, then run its
operator loop. -/
def parse_bin_level (next : PState → Except ParseErr (Expression × PState))
    (ops : List TokenType) (fuel : Nat) (st : PState) :
    Except ParseErr (Expression × PState) :=
  match next st with
  | .error e => .error e
  | .ok (left, st1) => parse_bin_rest next ops fuel left st1

/-- `Parser.parse_multiplicative`. -/
def parse_multiplicative_f (pe : PState → Except ParseErr (Expression × PState))
    (fuel : Nat) : PState → Except ParseErr (Expression × PState) :=
  parse_bin_level (parse_unary_f ( parse_postfix_f pe fuel) fuel)
    [TokenType.MULTIPLY, TokenType.DIVIDE, TokenType.MODULO] fuel

/-- `Parser.parse_additive`. -/
def parse_additive_f (pe : PState → Except ParseErr (Expression × PState))
    (fuel : Nat) : PState → Except ParseErr (Expression × PState) :=
  parse_bin_level (parse_multiplicative_f pe fuel)
    [TokenType.PLUS, TokenType.MINUS] fuel

/-- `Parser.parse_relational`. -/
def parse_relational_f (pe : PState → Except ParseErr (Expression × PState))
    (fuel : Nat) : PState → Except ParseErr (Expression × PState) :=
  parse_bin_level (parse_additive_f pe fuel)
    [TokenType.LESS_THAN, TokenType.GREATER_THAN,
     TokenType.LESS_EQUAL, TokenType.GREATER_EQUAL] fuel

/-- `Parser.parse_equality`. -/
def parse_equality_f (pe : PState → Except ParseErr (Expression × PState))
    (fuel : Nat) : PState → Except ParseErr (Expression × PState) :=
  parse_bin_level (parse_relational_f pe fuel)
    [TokenType.EQUAL, TokenType.NOT_EQUAL] fuel

/-- `Parser.parse_logical_and`. -/
def parse_logical_and_f (pe : PState → Except ParseErr (Expression × PState))
    (fuel : Nat) : PState → Except ParseErr (Expression × PState) :=
  parse_bin_level (parse_equality_f pe fuel) [TokenType.LOGICAL_AND] fuel

/-- `Parser.parse_logical_or`. -/
def parse_logical_or_f (pe : PState → Except ParseErr (Expression × PState))
    (fuel : Nat) : PState → Except ParseErr (Expression × PState) :=
  parse_bin_level (parse_logical_and_f pe fuel) [TokenType.LOGICAL_OR] fuel

/-- `Parser.parse_expression`: parse at logical-or level; on a following
`=`, demand the parsed left operand be an `Identifier`, else report
"Invalid assignment target" at the `=` token. -/
def parse_expression : Nat → PState → Except ParseErr (Expression × PState)
  | 0, st => .error (fuelErr st)
  | fuel+1, st =>
    match parse_logical_or_f (parse_expression fuel) fuel st with
    | .error e => .error e
    | .ok (expr, st1) =>
      if (pcur st1).type = TokenType.ASSIGN then
        match expr with
        | .ident name =>
          match parse_expression fuel (padvance st1) with
          | .error e => .error e
          | .ok (value, st2) => .ok (.assignment name value, st2)
        | _ => .error (perror st1 "Invalid assignment target")
      else .ok (expr, st1)

/-- `Parser.parse_logical_or` with the recursion knot tied. -/
def parse_logical_or (fuel : Nat) (st : PState) :
    Except ParseErr (Expression × PState) :=
  parse_logical_or_f (parse_expression fuel) fuel st

/-! ## Theorems -/

/- ### Decimal rendering -/

theorem decVal_decDigits (n : Nat) : decVal (decDigits n) = n := by
  induction n using Nat.strong_induction_on with
  | _ n ih =>
    rw [decDigits]
    by_cases h : n < 10
    · simp [h, decVal]
    · simp only [h, decVal, dif_neg]
      rw [ih (n / 10) (Nat.div_lt_self (by omega) (by omega))]
      omega

theorem decDigits_injective : Function.Injective decDigits := by
  intro a b h
  have := congrArg decVal h
  rwa [decVal_decDigits, decVal_decDigits] at this

theorem decDigits_lt_ten (n : Nat) : ∀ d ∈ decDigits n, d < 10 := by
  induction n using Nat.strong_induction_on with
  | _ n ih =>
    rw [decDigits]
    by_cases h : n < 10
    · simp [h]
    · rw [dif_neg h]
      intro d hd
      rcases List.mem_cons.mp hd with h1 | h2
      · subst h1; exact Nat.mod_lt _ (by omega)
      · exact ih (n / 10) (Nat.div_lt_self (by omega) (by omega)) d h2

theorem charDigit_digitChar : ∀ d < 10, charDigit (digitChar d) = d := by decide

theorem natToDec_injective : Function.Injective natToDec := by
  intro a b h
  have hdata : ((decDigits a).reverse.map digitChar) = ((decDigits b).reverse.map digitChar) := by
    have := congrArg String.data h
    simpa [natToDec] using this
  have hmap := congrArg (List.map charDigit) hdata
  rw [List.map_map, List.map_map] at hmap
  have ha : ∀ l : List Nat, (∀ d ∈ l, d < 10) →
      l.map (charDigit ∘ digitChar) = l := by
    intro l hl
    induction l with
    | nil => rfl
    | cons x xs ihx =>
      simp only [List.map_cons, List.cons.injEq]
      constructor
      · exact charDigit_digitChar x (hl x (by simp))
      · exact ihx (fun d hd => hl d (by simp [hd]))
  rw [ha _ (fun d hd => decDigits_lt_ten a d (List.mem_reverse.mp hd)),
      ha _ (fun d hd => decDigits_lt_ten b d (List.mem_reverse.mp hd))] at hmap
  exact decDigits_injective (List.reverse_injective hmap)

theorem tName_injective : Function.Injective tName := by
  intro a b h
  apply natToDec_injective
  have := congrArg String.data h
  simp only [tName, String.data_append] at this
  exact String.ext (by simpa using this)

theorem lName_injective : Function.Injective lName := by
  intro a b h
  apply natToDec_injective
  have := congrArg String.data h
  simp only [lName, String.data_append] at this
  exact String.ext (by simpa using this)

/- ### IR generator: step lemmas -/

theorem tempResults_append (a b : List TACInstruction) :
    tempResults (a ++ b) = tempResults a ++ tempResults b :=
  List.filterMap_append ..

theorem labelDefs_append (a b : List TACInstruction) :
    labelDefs (a ++ b) = labelDefs a ++ labelDefs b :=
  List.filterMap_append ..

theorem range'_map_glue (f : Nat → String) {a b c : Nat} (h1 : a ≤ b) (h2 : b ≤ c) :
    (List.range' a (b - a)).map f ++ (List.range' b (c - b)).map f =
      (List.range' a (c - a)).map f := by
  rw [← List.map_append]
  congr 1
  have h3 := List.range'_append_1 a (b - a) (c - b)
  rw [Nat.add_sub_cancel' h1] at h3
  rw [h3]
  congr 1
  omega

theorem exprStep_refl (s : GenState) : ExprStep s s :=
  ⟨Nat.le_refl _, rfl, [], by simp, by simp [tempResults], by simp [labelDefs], by simp⟩

theorem exprStep_trans {s1 s2 s3 : GenState}
    (h1 : ExprStep s1 s2) (h2 : ExprStep s2 s3) : ExprStep s1 s3 := by
  obtain ⟨t1, l1, Δ1, hi1, ht1, hl1, hc1⟩ := h1
  obtain ⟨t2, l2, Δ2, hi2, ht2, hl2, hc2⟩ := h2
  refine ⟨Nat.le_trans t1 t2, l2.trans l1, Δ1 ++ Δ2, ?_, ?_, ?_, ?_⟩
  · rw [hi2, hi1, List.append_assoc]
  · rw [tempResults_append, ht1, ht2, range'_map_glue tName t1 t2]
  · rw [labelDefs_append, hl1, hl2]; rfl
  · intro i hi
    rcases List.mem_append.mp hi with h | h
    · exact hc1 i h
    · exact hc2 i h

theorem exprStep_emit_fresh (s : GenState) (i : TACInstruction)
    (h : tempResult i = some (tName s.temp_counter))
    (hl : labelDef i = none) (hc : CallHasResult i) :
    ExprStep s (emit i (new_temp s).2) := by
  refine ⟨by simp [new_temp, emit], by simp [new_temp, emit], [i],
    by simp [new_temp, emit], ?_, ?_, ?_⟩
  · have hn : (emit i (new_temp s).2).temp_counter - s.temp_counter = 1 := by
      simp [new_temp, emit]
    rw [hn, List.range'_one]
    simp [tempResults, List.filterMap_cons, h]
  · simp [labelDefs, List.filterMap_cons, hl]
  · intro j hj
    rcases List.mem_singleton.mp hj with rfl
    exact hc

theorem exprStep_emit_plain (s : GenState) (i : TACInstruction)
    (h : tempResult i = none) (hl : labelDef i = none) (hc : CallHasResult i) :
    ExprStep s (emit i s) := by
  refine ⟨by simp [emit], by simp [emit], [i], by simp [emit], ?_, ?_, ?_⟩
  · have hn : (emit i s).temp_counter - s.temp_counter = 0 := by simp [emit]
    rw [hn]
    simp [tempResults, List.filterMap_cons, h]
  · simp [labelDefs, List.filterMap_cons, hl]
  · intro j hj
    rcases List.mem_singleton.mp hj with rfl
    exact hc

mutual
theorem visit_expression_step : ∀ (e : Expression) (s : GenState),
    ExprStep s (visit_expression e s).2
  | .intLit _, s => exprStep_refl s
  | .floatLit _, s => exprStep_refl s
  | .stringLit _, s => exprStep_refl s
  | .ident _, s => exprStep_refl s
  | .binaryOp op l r, s => by
    have h1 := visit_expression_step l s
    have h2 := visit_expression_step r (visit_expression l s).2
    have h3 := exprStep_emit_fresh (visit_expression r (visit_expression l s).2).2
      (.binaryOp (new_temp (visit_expression r (visit_expression l s).2).2).1
        (visit_expression l s).1 op (visit_expression r (visit_expression l s).2).1)
      rfl rfl (by intro a b c h; cases h)
    exact exprStep_trans (exprStep_trans h1 h2) h3
  | .unaryOp op e, s => by
    have h1 := visit_expression_step e s
    have h3 := exprStep_emit_fresh (visit_expression e s).2
      (.unaryOp (new_temp (visit_expression e s).2).1 op (visit_expression e s).1)
      rfl rfl (by intro a b c h; cases h)
    exact exprStep_trans h1 h3
  | .assignment target v, s => by
    have h1 := visit_expression_step v s
    have h3 := exprStep_emit_plain (visit_expression v s).2
      (.assign target (visit_expression v s).1) rfl rfl (by intro a b c h; cases h)
    exact exprStep_trans h1 h3
  | .functionCall f args, s => by
    have h1 := visit_params_reversed_step args s
    have h3 := exprStep_emit_fresh (visit_params_reversed args s)
      (.call (some (new_temp (visit_params_reversed args s)).1) f args.length)
      rfl rfl (by intro a b c h; cases h; simp)
    exact exprStep_trans h1 h3

theorem visit_params_reversed_step : ∀ (args : ExprList) (s : GenState),
    ExprStep s (visit_params_reversed args s)
  | .nil, s => exprStep_refl s
  | .cons a rest, s => by
    have h1 := visit_params_reversed_step rest s
    have h2 := visit_expression_step a (visit_params_reversed rest s)
    have h3 := exprStep_emit_plain (visit_expression a (visit_params_reversed rest s)).2
      (.param (visit_expression a (visit_params_reversed rest s)).1)
      rfl rfl (by intro x y z h; cases h)
    exact exprStep_trans (exprStep_trans h1 h2) h3
end

theorem exprStep_cond_ifFalse (c : Expression) (endL : String) (s4 : GenState) :
    ExprStep s4
      (emit (.ifFalseGoto (visit_expression c s4).1 endL) (visit_expression c s4).2) :=
  exprStep_trans (visit_expression_step c s4)
    (exprStep_emit_plain _ _ rfl rfl (by intro x y z h; cases h))

theorem emit_temp_counter (i : TACInstruction) (s : GenState) :
    (emit i s).temp_counter = s.temp_counter := rfl

theorem emit_label_counter (i : TACInstruction) (s : GenState) :
    (emit i s).label_counter = s.label_counter := rfl

theorem emit_instructions (i : TACInstruction) (s : GenState) :
    (emit i s).instructions = s.instructions ++ [i] := rfl

theorem stmtStep_refl (s : GenState) : StmtStep s s :=
  ⟨Nat.le_refl _, Nat.le_refl _, [], by simp, by simp [tempResults],
    by simp [labelDefs], by simp⟩

theorem stmtStep_trans {s1 s2 s3 : GenState}
    (h1 : StmtStep s1 s2) (h2 : StmtStep s2 s3) : StmtStep s1 s3 := by
  obtain ⟨t1, l1, Δ1, hi1, ht1, hl1, hc1⟩ := h1
  obtain ⟨t2, l2, Δ2, hi2, ht2, hl2, hc2⟩ := h2
  refine ⟨Nat.le_trans t1 t2, Nat.le_trans l1 l2, Δ1 ++ Δ2, ?_, ?_, ?_, ?_⟩
  · rw [hi2, hi1, List.append_assoc]
  · rw [tempResults_append, ht1, ht2, range'_map_glue tName t1 t2]
  · rw [labelDefs_append]
    have := List.Perm.append hl1 hl2
    rwa [range'_map_glue lName l1 l2] at this
  · intro i hi
    rcases List.mem_append.mp hi with h | h
    · exact hc1 i h
    · exact hc2 i h

theorem stmtStep_of_exprStep {s1 s2 : GenState} (h : ExprStep s1 s2) : StmtStep s1 s2 := by
  obtain ⟨t1, l1, Δ, hi, ht, hl, hc⟩ := h
  refine ⟨t1, Nat.le_of_eq l1.symm, Δ, hi, ht, ?_, hc⟩
  rw [hl, l1, Nat.sub_self]
  simp

theorem stmtStep_emit_plain (s : GenState) (i : TACInstruction)
    (h : tempResult i = none) (hl : labelDef i = none) (hc : CallHasResult i) :
    StmtStep s (emit i s) := by
  refine ⟨Nat.le_refl _, Nat.le_refl _, [i], by simp [emit], ?_, ?_, ?_⟩
  · rw [emit_temp_counter, Nat.sub_self]
    simp [tempResults, List.filterMap_cons, h]
  · rw [emit_label_counter, Nat.sub_self]
    simp [labelDefs, List.filterMap_cons, hl]
  · intro j hj
    rcases List.mem_singleton.mp hj with rfl
    exact hc

theorem tempResults_label_singleton (x : String) :
    tempResults [TACInstruction.label x] = [] := rfl

theorem tempResults_goto_singleton (x : String) :
    tempResults [TACInstruction.goto x] = [] := rfl

theorem labelDefs_label_singleton (x : String) :
    labelDefs [TACInstruction.label x] = [x] := rfl

theorem labelDefs_goto_singleton (x : String) :
    labelDefs [TACInstruction.goto x] = [] := rfl

/-- Shape of `visit_while_stmt`: two labels are allocated (`start = la`,
`end = la+1`), the start label is defined, the condition block (condition
lowering plus the `ifFalse` jump) runs, the body runs, and the loop closes
with `goto start` and the end label. -/
theorem stmtStep_while_shape {s s3 s5 s6 : GenState} {la : Nat}
    (hla : la = s.label_counter)
    (hs3 : s3 = emit (.label (lName la)) { s with label_counter := la + 2 })
    (hcp : ExprStep s3 s5)
    (hb : StmtStep s5 s6) :
    StmtStep s (emit (.label (lName (la + 1))) (emit (.goto (lName la)) s6)) := by
  subst hla hs3
  obtain ⟨tc1, lc1, Δc, hic, htc, hlc, hcc⟩ := hcp
  obtain ⟨tb1, lb1, Δb, hib, htb, hlb, hcb⟩ := hb
  simp only [emit] at tc1 lc1 htc hic
  have hl5 : s5.label_counter = s.label_counter + 2 := lc1
  have hl6 : s.label_counter + 2 ≤ s6.label_counter := hl5 ▸ lb1
  refine ⟨?_, ?_,
    [.label (lName s.label_counter)] ++ Δc ++ Δb ++
      [.goto (lName s.label_counter)] ++ [.label (lName (s.label_counter + 1))],
    ?_, ?_, ?_, ?_⟩
  · rw [emit_temp_counter, emit_temp_counter]
    exact Nat.le_trans tc1 tb1
  · rw [emit_label_counter, emit_label_counter]
    omega
  · rw [emit_instructions, emit_instructions, hib, hic]
    simp [List.append_assoc]
  · rw [emit_temp_counter, emit_temp_counter]
    simp only [tempResults_append, htc, htb, tempResults_label_singleton,
      tempResults_goto_singleton, List.nil_append, List.append_nil]
    exact range'_map_glue tName tc1 tb1
  · rw [emit_label_counter, emit_label_counter]
    rw [labelDefs_append, labelDefs_append, labelDefs_append, labelDefs_append,
      hlc, labelDefs_label_singleton, labelDefs_goto_singleton,
      labelDefs_label_singleton]
    simp only [List.append_nil, List.nil_append, List.singleton_append,
      List.cons_append]
    have hN : s6.label_counter - s.label_counter =
        ((s6.label_counter - s.label_counter - 2) + 1) + 1 := by omega
    rw [hN, List.range'_succ, List.range'_succ, List.map_cons, List.map_cons]
    refine List.Perm.cons _ ?_
    refine (List.perm_append_singleton _ _).trans (List.Perm.cons _ ?_)
    have hm : s6.label_counter - s.label_counter - 2 =
        s6.label_counter - s5.label_counter := by omega
    have hm2 : s.label_counter + 1 + 1 = s5.label_counter := by omega
    rw [hm, hm2]
    exact hlb
  · intro i hi
    simp only [List.append_assoc, List.mem_append, List.mem_singleton] at hi
    rcases hi with h | h | h | h | h
    · rcases h with rfl; intro a b c h; cases h
    · exact hcc i h
    · exact hcb i h
    · rcases h with rfl; intro a b c h; cases h
    · rcases h with rfl; intro a b c h; cases h

theorem tempResults_ifFalseGoto_singleton (c x : String) :
    tempResults [TACInstruction.ifFalseGoto c x] = [] := rfl

theorem labelDefs_ifFalseGoto_singleton (c x : String) :
    labelDefs [TACInstruction.ifFalseGoto c x] = [] := rfl

/-- Shape of `visit_if_stmt` without `else`: the condition is lowered first,
then one label (`end = la`) is allocated, the `ifFalse` jump and the then
branch are emitted, and the end label closes the statement. -/
theorem stmtStep_ifnone_shape {s s2 s3 s4 : GenState} {ct : String} {la : Nat}
    (hcp : ExprStep s s2)
    (hla : la = s2.label_counter)
    (hs3 : s3 = emit (.ifFalseGoto ct (lName la)) { s2 with label_counter := la + 1 })
    (hb : StmtStep s3 s4) :
    StmtStep s (emit (.label (lName la)) s4) := by
  subst hla hs3
  obtain ⟨tc1, lc1, Δc, hic, htc, hlc, hcc⟩ := hcp
  obtain ⟨tb1, lb1, Δb, hib, htb, hlb, hcb⟩ := hb
  simp only [emit] at tb1 lb1 htb hib hlb
  have hl4 : s2.label_counter + 1 ≤ s4.label_counter := lb1
  refine ⟨?_, ?_,
    Δc ++ [.ifFalseGoto ct (lName s2.label_counter)] ++ Δb ++
      [.label (lName s2.label_counter)],
    ?_, ?_, ?_, ?_⟩
  · rw [emit_temp_counter]
    exact Nat.le_trans tc1 tb1
  · rw [emit_label_counter]
    omega
  · rw [emit_instructions, hib, hic]
    simp [List.append_assoc]
  · rw [emit_temp_counter]
    simp only [tempResults_append, htc, htb, tempResults_ifFalseGoto_singleton,
      tempResults_label_singleton, List.nil_append, List.append_nil]
    exact range'_map_glue tName tc1 tb1
  · rw [emit_label_counter]
    rw [labelDefs_append, labelDefs_append, labelDefs_append,
      hlc, labelDefs_ifFalseGoto_singleton, labelDefs_label_singleton]
    simp only [List.append_nil, List.nil_append]
    rw [← lc1]
    have hN : s4.label_counter - s2.label_counter =
        (s4.label_counter - s2.label_counter - 1) + 1 := by omega
    rw [hN, List.range'_succ, List.map_cons]
    refine (List.perm_append_singleton _ _).trans (List.Perm.cons _ ?_)
    have hm : s4.label_counter - s2.label_counter - 1 =
        s4.label_counter - (s2.label_counter + 1) := by omega
    rw [hm]
    exact hlb
  · intro i hi
    simp only [List.append_assoc, List.mem_append, List.mem_singleton] at hi
    rcases hi with h | h | h | h
    · exact hcc i h
    · rcases h with rfl; intro a b c h; cases h
    · exact hcb i h
    · rcases h with rfl; intro a b c h; cases h

/-- Shape of `visit_if_stmt` with `else`: the condition is lowered first,
two labels are allocated (`else = la`, `end = la+1`), then the `ifFalse`
jump, the then branch, `goto end`, the else label, the else branch and
finally the end label are emitted. -/
theorem stmtStep_ifsome_shape {s s2 s4 s5 s7 s8 : GenState} {ct : String} {la : Nat}
    (hcp : ExprStep s s2)
    (hla : la = s2.label_counter)
    (hs4 : s4 = emit (.ifFalseGoto ct (lName la)) { s2 with label_counter := la + 2 })
    (hthen : StmtStep s4 s5)
    (hs7 : s7 = emit (.label (lName la)) (emit (.goto (lName (la + 1))) s5))
    (helse : StmtStep s7 s8) :
    StmtStep s (emit (.label (lName (la + 1))) s8) := by
  subst hla hs4 hs7
  obtain ⟨tc1, lc1, Δc, hic, htc, hlc, hcc⟩ := hcp
  obtain ⟨tt1, lt1, ΔT, hit, htt, hlt, hct⟩ := hthen
  obtain ⟨te1, le1, ΔE, hie, hte, hle, hce⟩ := helse
  simp only [emit] at tt1 lt1 htt hit hlt te1 le1 hte hie hle
  have hl5 : s2.label_counter + 2 ≤ s5.label_counter := lt1
  have hl8 : s5.label_counter ≤ s8.label_counter := le1
  refine ⟨?_, ?_,
    Δc ++ [.ifFalseGoto ct (lName s2.label_counter)] ++ ΔT ++
      [.goto (lName (s2.label_counter + 1))] ++ [.label (lName s2.label_counter)] ++
      ΔE ++ [.label (lName (s2.label_counter + 1))],
    ?_, ?_, ?_, ?_⟩
  · rw [emit_temp_counter]
    exact Nat.le_trans tc1 (Nat.le_trans tt1 te1)
  · rw [emit_label_counter]
    omega
  · rw [emit_instructions, hie, hit, hic]
    simp [List.append_assoc]
  · rw [emit_temp_counter]
    simp only [tempResults_append, htc, htt, hte, tempResults_ifFalseGoto_singleton,
      tempResults_label_singleton, tempResults_goto_singleton,
      List.nil_append, List.append_nil]
    rw [range'_map_glue tName tc1 tt1, range'_map_glue tName (Nat.le_trans tc1 tt1) te1]
  · rw [emit_label_counter]
    rw [labelDefs_append, labelDefs_append, labelDefs_append, labelDefs_append,
      labelDefs_append, labelDefs_append, hlc, labelDefs_ifFalseGoto_singleton,
      labelDefs_label_singleton, labelDefs_label_singleton, labelDefs_goto_singleton]
    simp only [List.append_nil, List.nil_append, List.singleton_append,
      List.cons_append, List.append_assoc]
    rw [← lc1]
    have hN : s8.label_counter - s2.label_counter =
        ((s8.label_counter - s2.label_counter - 2) + 1) + 1 := by omega
    rw [hN, List.range'_succ, List.range'_succ, List.map_cons, List.map_cons]
    refine List.Perm.trans List.perm_middle ?_
    refine List.Perm.cons _ ?_
    rw [← List.append_assoc]
    refine (List.perm_append_singleton _ _).trans ?_
    refine List.Perm.cons _ ?_
    have hg := List.Perm.append hlt hle
    rw [range'_map_glue lName hl5 hl8] at hg
    have hm : s8.label_counter - s2.label_counter - 2 =
        s8.label_counter - (s2.label_counter + 2) := by omega
    have hm2 : s2.label_counter + 1 + 1 = s2.label_counter + 2 := by omega
    rw [hm, hm2]
    exact hg
  · intro i hi
    simp only [List.append_assoc, List.mem_append, List.mem_singleton] at hi
    rcases hi with h | h | h | h | h | h | h
    · exact hcc i h
    · rcases h with rfl; intro a b c h; cases h
    · exact hct i h
    · rcases h with rfl; intro a b c h; cases h
    · rcases h with rfl; intro a b c h; cases h
    · exact hce i h
    · rcases h with rfl; intro a b c h; cases h

/-- Shape of `visit_for_stmt` after the init statement: three labels are
allocated (`start = la`, `end = la+1`, `update = la+2`); the start label, the
optional condition block, the body, the update label, the optional update
expression, `goto start` and the end label are emitted in that order. -/
theorem stmtStep_for_shape {s0 s4 s5 s6 s7 s8 : GenState} {la : Nat}
    (hla : la = s0.label_counter)
    (hs4 : s4 = emit (.label (lName la)) { s0 with label_counter := la + 3 })
    (hcp : ExprStep s4 s5)
    (hbody : StmtStep s5 s6)
    (hs7 : s7 = emit (.label (lName (la + 2))) s6)
    (hupd : ExprStep s7 s8) :
    StmtStep s0 (emit (.label (lName (la + 1))) (emit (.goto (lName la)) s8)) := by
  subst hla hs4 hs7
  obtain ⟨tc1, lc1, Δc, hic, htc, hlc, hcc⟩ := hcp
  obtain ⟨tb1, lb1, Δb, hib, htb, hlb, hcb⟩ := hbody
  obtain ⟨tu1, lu1, Δu, hiu, htu, hlu, hcu⟩ := hupd
  simp only [emit] at tc1 lc1 htc hic tb1 lb1 htb hib hlb tu1 lu1 htu hiu
  have hl5 : s5.label_counter = s0.label_counter + 3 := lc1
  have hl6 : s0.label_counter + 3 ≤ s6.label_counter := hl5 ▸ lb1
  have hl8 : s8.label_counter = s6.label_counter := lu1
  refine ⟨?_, ?_,
    [.label (lName s0.label_counter)] ++ Δc ++ Δb ++
      [.label (lName (s0.label_counter + 2))] ++ Δu ++
      [.goto (lName s0.label_counter)] ++ [.label (lName (s0.label_counter + 1))],
    ?_, ?_, ?_, ?_⟩
  · rw [emit_temp_counter, emit_temp_counter]
    exact Nat.le_trans tc1 (Nat.le_trans tb1 tu1)
  · rw [emit_label_counter, emit_label_counter]
    omega
  · rw [emit_instructions, emit_instructions, hiu, hib, hic]
    simp [List.append_assoc]
  · rw [emit_temp_counter, emit_temp_counter]
    simp only [tempResults_append, htc, htb, htu, tempResults_label_singleton,
      tempResults_goto_singleton, List.nil_append, List.append_nil]
    rw [range'_map_glue tName tc1 tb1, range'_map_glue tName (Nat.le_trans tc1 tb1) tu1]
  · rw [emit_label_counter, emit_label_counter]
    rw [labelDefs_append, labelDefs_append, labelDefs_append, labelDefs_append,
      labelDefs_append, labelDefs_append, hlc, hlu, labelDefs_label_singleton,
      labelDefs_label_singleton, labelDefs_label_singleton, labelDefs_goto_singleton]
    simp only [List.append_nil, List.nil_append, List.singleton_append,
      List.cons_append, List.append_assoc]
    have hN : s8.label_counter - s0.label_counter =
        (((s8.label_counter - s0.label_counter - 3) + 1) + 1) + 1 := by omega
    rw [hN, List.range'_succ, List.range'_succ, List.range'_succ,
      List.map_cons, List.map_cons, List.map_cons]
    refine List.Perm.cons _ ?_
    refine List.Perm.trans List.perm_middle ?_
    refine List.Perm.trans (List.Perm.cons _ (List.perm_append_singleton _ _)) ?_
    refine List.Perm.trans (List.Perm.swap _ _ _) ?_
    refine List.Perm.cons _ ?_
    refine List.Perm.cons _ ?_
    have hm : s8.label_counter - s0.label_counter - 3 =
        s6.label_counter - s5.label_counter := by omega
    have hm2 : s0.label_counter + 1 + 1 + 1 = s5.label_counter := by omega
    rw [hm, hm2]
    exact hlb
  · intro i hi
    simp only [List.append_assoc, List.mem_append, List.mem_singleton] at hi
    rcases hi with h | h | h | h | h | h | h
    · rcases h with rfl; intro a b c h; cases h
    · exact hcc i h
    · exact hcb i h
    · rcases h with rfl; intro a b c h; cases h
    · exact hcu i h
    · rcases h with rfl; intro a b c h; cases h
    · rcases h with rfl; intro a b c h; cases h

theorem visit_var_decl_step (name : String) (initializer : Option Expression)
    (s : GenState) : StmtStep s (visit_var_decl name initializer s) := by
  cases initializer with
  | none => exact stmtStep_refl s
  | some e =>
    exact stmtStep_trans (stmtStep_of_exprStep (visit_expression_step e s))
      (stmtStep_emit_plain _ (.assign name (visit_expression e s).1) rfl rfl
        (by intro a b c h; cases h))

mutual
theorem visit_statement_step : ∀ (st : Stmt) (s : GenState),
    StmtStep s (visit_statement st s)
  | .varDecl _ name initializer, s => visit_var_decl_step name initializer s
  | .compound stmts, s => visit_stmt_list_step stmts s
  | .exprStmt none, s => stmtStep_refl s
  | .exprStmt (some e), s => stmtStep_of_exprStep (visit_expression_step e s)
  | .returnStmt none, s =>
    stmtStep_emit_plain s (.ret none) rfl rfl (by intro a b c h; cases h)
  | .returnStmt (some e), s =>
    stmtStep_trans (stmtStep_of_exprStep (visit_expression_step e s))
      (stmtStep_emit_plain _ (.ret (some (visit_expression e s).1)) rfl rfl
        (by intro a b c h; cases h))
  | .ifStmt cond then_stmt .none, s => by
    have hthen := visit_statement_step then_stmt
      (emit (.ifFalseGoto (visit_expression cond s).1
          (lName (visit_expression cond s).2.label_counter))
        { (visit_expression cond s).2 with
            label_counter := (visit_expression cond s).2.label_counter + 1 })
    exact stmtStep_ifnone_shape (visit_expression_step cond s) rfl rfl hthen
  | .ifStmt cond then_stmt (.some else_stmt), s => by
    have hthen := visit_statement_step then_stmt
      (emit (.ifFalseGoto (visit_expression cond s).1
          (lName (visit_expression cond s).2.label_counter))
        { (visit_expression cond s).2 with
            label_counter := (visit_expression cond s).2.label_counter + 2 })
    have helse := visit_statement_step else_stmt
      (emit (.label (lName (visit_expression cond s).2.label_counter))
        (emit (.goto (lName ((visit_expression cond s).2.label_counter + 1)))
          (visit_statement then_stmt
            (emit (.ifFalseGoto (visit_expression cond s).1
                (lName (visit_expression cond s).2.label_counter))
              { (visit_expression cond s).2 with
                  label_counter := (visit_expression cond s).2.label_counter + 2 }))))
    exact stmtStep_ifsome_shape (visit_expression_step cond s) rfl rfl hthen rfl helse
  | .whileStmt cond body, s => by
    have hcp : ExprStep
        (emit (.label (lName s.label_counter))
          { s with label_counter := s.label_counter + 2 })
        (emit (.ifFalseGoto
            (visit_expression cond
              (emit (.label (lName s.label_counter))
                { s with label_counter := s.label_counter + 2 })).1
            (lName (s.label_counter + 1)))
          (visit_expression cond
            (emit (.label (lName s.label_counter))
              { s with label_counter := s.label_counter + 2 })).2) :=
      exprStep_trans (visit_expression_step cond _)
        (exprStep_emit_plain _ _ rfl rfl (by intro a b c h; cases h))
    have hb := visit_statement_step body
      (emit (.ifFalseGoto
          (visit_expression cond
            (emit (.label (lName s.label_counter))
              { s with label_counter := s.label_counter + 2 })).1
          (lName (s.label_counter + 1)))
        (visit_expression cond
          (emit (.label (lName s.label_counter))
            { s with label_counter := s.label_counter + 2 })).2)
    exact stmtStep_while_shape rfl rfl hcp hb
  | .forStmt init cond update body, s => by
    refine stmtStep_trans (visit_opt_stmt_step init s) ?_
    rcases cond with _ | c
    · rcases update with _ | u
      · exact stmtStep_for_shape rfl rfl (exprStep_refl _)
          (visit_statement_step body _) rfl (exprStep_refl _)
      · exact stmtStep_for_shape rfl rfl (exprStep_refl _)
          (visit_statement_step body _) rfl (visit_expression_step u _)
    · rcases update with _ | u
      · exact stmtStep_for_shape rfl rfl (exprStep_cond_ifFalse c _ _)
          (visit_statement_step body _) rfl (exprStep_refl _)
      · exact stmtStep_for_shape rfl rfl (exprStep_cond_ifFalse c _ _)
          (visit_statement_step body _) rfl (visit_expression_step u _)

theorem visit_opt_stmt_step : ∀ (o : OptStmt) (s : GenState),
    StmtStep s (visit_opt_stmt o s)
  | .none, s => stmtStep_refl s
  | .some st, s => visit_statement_step st s

theorem visit_stmt_list_step : ∀ (l : StmtList) (s : GenState),
    StmtStep s (visit_stmt_list l s)
  | .nil, s => stmtStep_refl s
  | .cons st rest, s =>
    stmtStep_trans (visit_statement_step st s)
      (visit_stmt_list_step rest (visit_statement st s))
end

theorem visit_function_decl_step (name : String) (body : Option StmtList)
    (s : GenState) : StmtStep s (visit_function_decl name body s) := by
  cases body with
  | none => exact stmtStep_refl s
  | some stmts =>
    exact stmtStep_trans
      (stmtStep_emit_plain s (.functionStart name) rfl rfl (by intro a b c h; cases h))
      (stmtStep_trans (visit_stmt_list_step stmts _)
        (stmtStep_emit_plain _ (.functionEnd name) rfl rfl (by intro a b c h; cases h)))

theorem visit_decl_step (d : Decl) (s : GenState) : StmtStep s (visit_decl d s) := by
  cases d with
  | functionDecl rt name params body => exact visit_function_decl_step name body s
  | varDecl vt name initializer => exact visit_var_decl_step name initializer s

theorem visit_decls_step (ds : List Decl) (s : GenState) :
    StmtStep s (visit_decls ds s) := by
  induction ds generalizing s with
  | nil => exact stmtStep_refl s
  | cons d rest ih =>
    exact stmtStep_trans (visit_decl_step d s) (ih (visit_decl d s))

/-- `ParamCode` holds of the block actually produced by the reversed-order
parameter loop, with the final state of the loop. -/
theorem paramCode_of_run : ∀ (args : ExprList) (s : GenState),
    ∃ Δ, (visit_params_reversed args s).instructions = s.instructions ++ Δ ∧
      ParamCode args s (visit_params_reversed args s) Δ
  | .nil, s => ⟨[], by simp [visit_params_reversed], ⟨rfl, rfl⟩⟩
  | .cons a rest, s => by
    obtain ⟨ΔR, hiR, hpR⟩ := paramCode_of_run rest s
    obtain ⟨_, _, ΔA, hiA, _, _, _⟩ :=
      visit_expression_step a (visit_params_reversed rest s)
    refine ⟨ΔR ++ ΔA ++ [.param (visit_expression a (visit_params_reversed rest s)).1],
      ?_, ?_⟩
    · show (emit _ _).instructions = _
      rw [emit_instructions, hiA, hiR]
      simp [List.append_assoc]
    · exact ⟨visit_params_reversed rest s, ΔR, ΔA, hpR, hiA, rfl, rfl⟩

/- ### Claim theorems for the IR generator -/

/-- C4: in the TAC list produced by one IR-generator run on any Program, no
temporary name is emitted twice as the result of a fresh-temporary
allocation, and no label name is defined twice; the two counters are
independent and shared across all functions of the compilation (the whole
program is generated from the single initial state, with no per-function
reset). -/
theorem c4_fresh_name_uniqueness (p : Program) :
    (tempResults (generate p).instructions).Nodup ∧
    (labelDefs (generate p).instructions).Nodup := by
  obtain ⟨ht, hl, Δ, hi, htr, hlp, hc⟩ := visit_decls_step p.declarations initGenState
  have hi2 : (generate p).instructions = Δ := by
    have : (visit_decls p.declarations initGenState).instructions = [] ++ Δ := hi
    simpa [generate] using this
  constructor
  · rw [hi2, htr]
    exact (List.nodup_range' _ _).map tName_injective
  · rw [hi2]
    exact ((hlp.nodup_iff).mpr ((List.nodup_range' _ _).map lName_injective))

/-- C10: every TAC call instruction emitted by the IR generator carries a
result name (a fresh temporary); the result-less call form is never
produced. -/
theorem c10_call_always_has_result (p : Program) :
    ∀ i ∈ (generate p).instructions, ∀ r f n,
      i = TACInstruction.call r f n → ∃ t, r = some t := by
  obtain ⟨_, _, Δ, hi, _, _, hc⟩ := visit_decls_step p.declarations initGenState
  intro i him r f n he
  have hmem : i ∈ Δ := by
    have hi2 : (generate p).instructions = Δ := by
      have : (visit_decls p.declarations initGenState).instructions = [] ++ Δ := hi
      simpa [generate] using this
    rwa [hi2] at him
  have hne := hc i hmem r f n he
  cases r with
  | none => exact absurd rfl hne
  | some t => exact ⟨t, rfl⟩

/-- C10 witness: a bare call statement in a void context still gets a
result temporary (`t0 = call f, 0`). -/
theorem c10_call_always_has_result_witness :
    ∃ t, (some (tName 0) : Option String) = some t := by
  have hg : (generate ⟨[Decl.functionDecl "void" "main" []
      (some (.cons (.exprStmt (some (.functionCall "f" .nil))) .nil))]⟩).instructions =
      [.functionStart "main", .call (some (tName 0)) "f" 0, .functionEnd "main"] := by
    simp [generate, visit_decls, visit_decl, visit_function_decl, visit_stmt_list,
      visit_statement, visit_expression, visit_params_reversed, new_temp, emit,
      initGenState, ExprList.length]
  exact c10_call_always_has_result _ (.call (some (tName 0)) "f" 0)
    (by rw [hg]; simp) (some (tName 0)) "f" 0 rfl

/-- C6: lowering `FunctionCall(f, args)` emits one `param` per argument in
reverse source order, each immediately preceded by that argument's own
lowering (the `ParamCode` predicate), followed by a single
`result = call f, n` instruction whose result is the returned temporary and
whose argument count is the number of arguments. -/
theorem c6_call_lowering (f : String) (args : ExprList) (s : GenState) :
    ∃ Δp t,
      ParamCode args s (visit_params_reversed args s) Δp ∧
      (visit_expression (.functionCall f args) s).2.instructions =
        s.instructions ++ Δp ++ [.call (some t) f args.length] ∧
      (visit_expression (.functionCall f args) s).1 = t := by
  obtain ⟨Δp, hip, hpc⟩ := paramCode_of_run args s
  refine ⟨Δp, tName (visit_params_reversed args s).temp_counter, hpc, ?_, rfl⟩
  show (emit _ _).instructions = _
  rw [emit_instructions]
  have : (new_temp (visit_params_reversed args s)).2.instructions =
      (visit_params_reversed args s).instructions := rfl
  rw [this, hip]
  rfl

/-- C1 counterexample: a Program consisting of one global `VarDecl` with an
initializer (`int x = 5;`) makes the IR generator emit TAC (the assignment
`x = 5`), so a global declaration does not always contribute nothing. -/
theorem c1_counterexample :
    (generate ⟨[Decl.varDecl "int" "x" (some (.intLit 5))]⟩).instructions ≠ [] := by
  decide

/-- C1 amended: a global `VarDecl` without an initializer produces no TAC
instruction, while a global `VarDecl` with an initializer contributes
exactly the lowering of its initializer followed by the assignment
`name = value` — the same lowering as a local declaration. -/
theorem c1_amended_global_var_decl (var_type name : String) (s : GenState) :
    visit_decl (.varDecl var_type name none) s = s ∧
    ∀ e, ∃ Δe, (visit_expression e s).2.instructions = s.instructions ++ Δe ∧
      (visit_decl (.varDecl var_type name (some e)) s).instructions =
        s.instructions ++ Δe ++ [.assign name (visit_expression e s).1] := by
  refine ⟨rfl, ?_⟩
  intro e
  obtain ⟨_, _, Δe, hie, _, _, _⟩ := visit_expression_step e s
  refine ⟨Δe, hie, ?_⟩
  show (emit _ _).instructions = _
  rw [emit_instructions, hie]

/- ### Semantic analyzer: invariants -/

theorem sem_error_errors (msg : String) (st : AnalyzerState) :
    (sem_error msg st).errors = st.errors ++ [msg] := rfl

theorem sem_error_table (msg : String) (st : AnalyzerState) :
    (sem_error msg st).symbol_table = st.symbol_table := rfl

mutual
/-- Expressions never touch the symbol table, the current return type or
the declaration log, and only append to the error list. -/
theorem sem_expr_inv : ∀ (e : Expression) (st : AnalyzerState),
    (sem_visit_expression e st).2.symbol_table = st.symbol_table ∧
    (sem_visit_expression e st).2.current_function_return_type =
      st.current_function_return_type ∧
    (sem_visit_expression e st).2.log = st.log ∧
    ∃ l, (sem_visit_expression e st).2.errors = st.errors ++ l
  | .intLit _, st => ⟨rfl, rfl, rfl, [], by simp [sem_visit_expression]⟩
  | .floatLit _, st => ⟨rfl, rfl, rfl, [], by simp [sem_visit_expression]⟩
  | .stringLit _, st => ⟨rfl, rfl, rfl, [], by simp [sem_visit_expression]⟩
  | .ident n, st => by
    cases h : lookup st.symbol_table n with
    | none =>
      exact ⟨by simp [sem_visit_expression, h, sem_error],
        by simp [sem_visit_expression, h, sem_error],
        by simp [sem_visit_expression, h, sem_error],
        ["Undefined variable: '" ++ n ++ "'"],
        by simp [sem_visit_expression, h, sem_error]⟩
    | some sym =>
      exact ⟨by simp [sem_visit_expression, h],
        by simp [sem_visit_expression, h],
        by simp [sem_visit_expression, h], [],
        by simp [sem_visit_expression, h]⟩
  | .binaryOp op l r, st => by
    obtain ⟨h1t, h1c, h1g, l1, h1e⟩ := sem_expr_inv l st
    obtain ⟨h2t, h2c, h2g, l2, h2e⟩ := sem_expr_inv r (sem_visit_expression l st).2
    simp only [sem_visit_expression]
    exact ⟨by rw [h2t, h1t], by rw [h2c, h1c], by rw [h2g, h1g], l1 ++ l2,
      by rw [h2e, h1e, List.append_assoc]⟩
  | .unaryOp op e, st => by
    obtain ⟨h1t, h1c, h1g, l1, h1e⟩ := sem_expr_inv e st
    simp only [sem_visit_expression]
    exact ⟨h1t, h1c, h1g, l1, h1e⟩
  | .assignment target v, st => by
    obtain ⟨h1t, h1c, h1g, l1, h1e⟩ := sem_expr_inv v st
    cases h : lookup st.symbol_table target with
    | none =>
      exact ⟨by simp [sem_visit_expression, h, sem_error],
        by simp [sem_visit_expression, h, sem_error],
        by simp [sem_visit_expression, h, sem_error],
        ["Assignment to undefined variable: '" ++ target ++ "'"],
        by simp [sem_visit_expression, h, sem_error]⟩
    | some sym =>
      cases hc : is_compatible_type sym.type (sem_visit_expression v st).1 with
      | true =>
        exact ⟨by simp [sem_visit_expression, h, hc, h1t],
          by simp [sem_visit_expression, h, hc, h1c],
          by simp [sem_visit_expression, h, hc, h1g], l1,
          by simp [sem_visit_expression, h, hc, h1e]⟩
      | false =>
        refine ⟨by simp [sem_visit_expression, h, hc, sem_error, h1t],
          by simp [sem_visit_expression, h, hc, sem_error, h1c],
          by simp [sem_visit_expression, h, hc, sem_error, h1g],
          l1 ++ ["Type mismatch in assignment to '" ++ target ++
            "': cannot assign " ++ (sem_visit_expression v st).1 ++
            " to " ++ sym.type], ?_⟩
        simp [sem_visit_expression, h, hc, sem_error, h1e]
  | .functionCall n args, st => by
    cases h : lookup st.symbol_table n with
    | none =>
      exact ⟨by simp [sem_visit_expression, h, sem_error],
        by simp [sem_visit_expression, h, sem_error],
        by simp [sem_visit_expression, h, sem_error],
        ["Call to undefined function: '" ++ n ++ "'"],
        by simp [sem_visit_expression, h, sem_error]⟩
    | some sym =>
      cases hp : sym.type.startsWith "function:" with
      | true =>
        obtain ⟨hat, hac, hag, la, hae⟩ := sem_args_inv args st
        exact ⟨by simp [sem_visit_expression, h, hp, hat],
          by simp [sem_visit_expression, h, hp, hac],
          by simp [sem_visit_expression, h, hp, hag], la,
          by simp [sem_visit_expression, h, hp, hae]⟩
      | false =>
        exact ⟨by simp [sem_visit_expression, h, hp, sem_error],
          by simp [sem_visit_expression, h, hp, sem_error],
          by simp [sem_visit_expression, h, hp, sem_error],
          ["'" ++ n ++ "' is not a function"],
          by simp [sem_visit_expression, h, hp, sem_error]⟩

theorem sem_args_inv : ∀ (args : ExprList) (st : AnalyzerState),
    (sem_visit_args args st).symbol_table = st.symbol_table ∧
    (sem_visit_args args st).current_function_return_type =
      st.current_function_return_type ∧
    (sem_visit_args args st).log = st.log ∧
    ∃ l, (sem_visit_args args st).errors = st.errors ++ l
  | .nil, st => ⟨rfl, rfl, rfl, [], by simp [sem_visit_args]⟩
  | .cons a rest, st => by
    obtain ⟨h1t, h1c, h1g, l1, h1e⟩ := sem_expr_inv a st
    obtain ⟨h2t, h2c, h2g, l2, h2e⟩ := sem_args_inv rest (sem_visit_expression a st).2
    simp only [sem_visit_args]
    exact ⟨by rw [h2t, h1t], by rw [h2c, h1c], by rw [h2g, h1g], l1 ++ l2,
      by rw [h2e, h1e, List.append_assoc]⟩
end

theorem stInv_refl (st : AnalyzerState) : StInv st st :=
  ⟨⟨[], by simp⟩, fun _ => rfl, id, fun _ => ⟨[], by simp, by simp⟩⟩

theorem stInv_trans {s1 s2 s3 : AnalyzerState}
    (h1 : StInv s1 s2) (h2 : StInv s2 s3) : StInv s1 s3 := by
  obtain ⟨⟨l1, he1⟩, hn1, hs1, hg1⟩ := h1
  obtain ⟨⟨l2, he2⟩, hn2, hs2, hg2⟩ := h2
  refine ⟨⟨l1 ++ l2, by rw [he2, he1, List.append_assoc]⟩, ?_,
    fun h => hs2 (hs1 h), ?_⟩
  · intro h
    have hn1h := hn1 h
    have h2le : 1 ≤ s2.symbol_table.scopes.length := by omega
    rw [hn2 h2le, hn1h]
  · intro h
    obtain ⟨g1, hgl1, hgo1⟩ := hg1 h
    obtain ⟨g2, hgl2, hgo2⟩ := hg2 (hs1 h)
    refine ⟨g1 ++ g2, by rw [hgl2, hgl1, List.append_assoc], ?_⟩
    intro sym hsym
    rcases List.mem_append.mp hsym with hin | hin
    · exact hgo1 sym hin
    · exact hgo2 sym hin

/-- A visit that keeps the symbol table and the declaration log and only
appends errors satisfies the statement invariant. -/
theorem stInv_of_table_eq {s1 s2 : AnalyzerState}
    (ht : s2.symbol_table = s1.symbol_table)
    (hg : s2.log = s1.log)
    (he : ∃ l, s2.errors = s1.errors ++ l) : StInv s1 s2 :=
  ⟨he, fun _ => by rw [ht], fun h => by rw [ht]; exact h,
    fun _ => ⟨[], by rw [hg]; simp, by simp⟩⟩

theorem stInv_of_expr (e : Expression) (st : AnalyzerState) :
    StInv st (sem_visit_expression e st).2 := by
  obtain ⟨ht, _, hg, he⟩ := sem_expr_inv e st
  exact stInv_of_table_eq ht hg he

theorem stInv_sem_error (msg : String) (st : AnalyzerState) :
    StInv st (sem_error msg st) :=
  stInv_of_table_eq rfl rfl ⟨[msg], rfl⟩

theorem stInv_declareS (name symbol_type : String) (st : AnalyzerState) :
    StInv st (declareS name symbol_type st) := by
  unfold declareS declare
  cases hsc : st.symbol_table.scopes with
  | nil =>
    refine ⟨⟨[], by simp⟩, fun _ => rfl, fun h => h, ?_⟩
    rintro ⟨hfr, hcur⟩
    refine ⟨[⟨name, symbol_type, st.symbol_table.current_scope⟩], rfl, ?_⟩
    intro sym hsym
    rcases List.mem_singleton.mp hsym with rfl
    exact hcur
  | cons top rest =>
    by_cases hdup : top.any (fun pr => pr.1 == name) = true
    · simp only [hdup, if_true]
      exact stInv_sem_error _ st
    · simp only [hdup, if_false, Bool.false_eq_true]
      refine ⟨⟨[], by simp⟩, ?_, ?_, ?_⟩
      · intro _
        simp [hsc]
      · rintro ⟨hfr, hcur⟩
        constructor
        · intro fr hfr2 pr hpr
          simp only [hsc, List.mem_cons] at hfr2
          rcases hfr2 with rfl | hfr2
          · rcases List.mem_append.mp hpr with hin | hin
            · exact hfr top (by rw [hsc]; exact List.mem_cons_self _ _) pr hin
            · rcases List.mem_singleton.mp hin with rfl
              exact hcur
          · exact hfr fr (by rw [hsc]; exact List.mem_cons_of_mem _ hfr2) pr hpr
        · exact hcur
      · rintro ⟨hfr, hcur⟩
        refine ⟨[⟨name, symbol_type, st.symbol_table.current_scope⟩], by simp, ?_⟩
        intro sym hsym
        rcases List.mem_singleton.mp hsym with rfl
        exact hcur

theorem enter_scope_scopesOK {tbl : SymbolTable} (scope_name : String)
    (hok : ScopesOK tbl) (hname : ScopeLabelOKExt scope_name) :
    ScopesOK (enter_scope tbl scope_name) := by
  obtain ⟨hfr, _⟩ := hok
  refine ⟨?_, hname⟩
  intro fr hfr2 pr hpr
  rcases List.mem_cons.mp hfr2 with rfl | hfr2
  · cases hpr
  · exact hfr fr hfr2 pr hpr

theorem exit_scope_scopesOK {tbl : SymbolTable} (hok : ScopesOK tbl) :
    ScopesOK (exit_scope tbl) := by
  obtain ⟨hfr, hcur⟩ := hok
  unfold exit_scope
  by_cases h : 1 < tbl.scopes.length
  · simp only [h, if_true]
    refine ⟨?_, Or.inr rfl⟩
    intro fr hfr2 pr hpr
    refine hfr fr ?_ pr hpr
    cases hsc : tbl.scopes with
    | nil => rw [hsc] at hfr2; cases hfr2
    | cons a rest =>
      rw [hsc] at hfr2
      exact List.mem_cons_of_mem _ hfr2
  · simp only [h, if_false]
    exact ⟨hfr, hcur⟩

/-- Frame discipline: entering a well-labelled scope, running a body that
satisfies the invariant, and exiting restores the stack depth and preserves
well-labelledness. -/
theorem stInv_enter_exit {st st1 stBody stFinal : AnalyzerState} (scope_name : String)
    (hname : ScopeLabelOKExt scope_name)
    (hbody : StInv st1 stBody)
    (h1tab : st1.symbol_table = enter_scope st.symbol_table scope_name)
    (h1err : st1.errors = st.errors)
    (hftab : stFinal.symbol_table = exit_scope stBody.symbol_table)
    (hferr : stFinal.errors = stBody.errors)
    (h1log : st1.log = st.log)
    (hflog : stFinal.log = stBody.log) :
    StInv st stFinal := by
  obtain ⟨⟨l, hble⟩, hbn, hbs, hbg⟩ := hbody
  refine ⟨⟨l, by rw [hferr, hble, h1err]⟩, ?_, ?_, ?_⟩
  · intro h
    have h1len : st1.symbol_table.scopes.length =
        st.symbol_table.scopes.length + 1 := by
      rw [h1tab]; simp [enter_scope]
    have hblen : stBody.symbol_table.scopes.length =
        st.symbol_table.scopes.length + 1 := by
      rw [hbn (by omega), h1len]
    rw [hftab]
    unfold exit_scope
    have hgt : 1 < stBody.symbol_table.scopes.length := by omega
    simp only [hgt, if_true]
    rw [List.length_tail, hblen]
    omega
  · intro hok
    have h1ok : ScopesOK st1.symbol_table := by
      rw [h1tab]; exact enter_scope_scopesOK scope_name hok hname
    have hbok := hbs h1ok
    rw [hftab]
    exact exit_scope_scopesOK hbok
  · intro hok
    have h1ok : ScopesOK st1.symbol_table := by
      rw [h1tab]; exact enter_scope_scopesOK scope_name hok hname
    obtain ⟨g, hgl, hgo⟩ := hbg h1ok
    exact ⟨g, by rw [hflog, hgl, h1log], hgo⟩

theorem stInv_var_decl (var_type name : String) (initializer : Option Expression)
    (st : AnalyzerState) : StInv st (sem_visit_var_decl var_type name initializer st) := by
  unfold sem_visit_var_decl
  refine stInv_trans (stInv_declareS name var_type st) ?_
  cases initializer with
  | none => exact stInv_refl _
  | some e =>
    cases hc : is_compatible_type var_type
        (sem_visit_expression e (declareS name var_type st)).1 with
    | true =>
      simp only [hc, if_true]
      exact stInv_of_expr e _
    | false =>
      simp only [hc, Bool.false_eq_true, if_false]
      exact stInv_trans (stInv_of_expr e _) (stInv_sem_error _ _)

theorem stInv_return (expression : Option Expression) (st : AnalyzerState) :
    StInv st (sem_visit_return expression st) := by
  unfold sem_visit_return
  cases st.current_function_return_type with
  | none => exact stInv_sem_error _ st
  | some rt =>
    cases expression with
    | some e =>
      cases hc : is_compatible_type rt (sem_visit_expression e st).1 with
      | true =>
        simp only [hc, if_true]
        exact stInv_of_expr e st
      | false =>
        simp only [hc, Bool.false_eq_true, if_false]
        exact stInv_trans (stInv_of_expr e st) (stInv_sem_error _ _)
    | none =>
      by_cases hv : rt = "void"
      · simp only [hv, if_true]
        exact stInv_refl st
      · simp only [hv, if_false]
        exact stInv_sem_error _ st

mutual
theorem sem_stmt_inv : ∀ (s : Stmt) (st : AnalyzerState),
    StInv st (sem_visit_statement s st)
  | .varDecl vt n i, st => stInv_var_decl vt n i st
  | .compound stmts, st => by
    simp only [sem_visit_statement]
    exact stInv_enter_exit "block" (Or.inl (Or.inr (Or.inr (Or.inl rfl))))
      (sem_stmt_list_inv stmts
        { st with symbol_table := enter_scope st.symbol_table "block" })
      rfl rfl rfl rfl rfl rfl
  | .exprStmt none, st => stInv_refl st
  | .exprStmt (some e), st => stInv_of_expr e st
  | .returnStmt e, st => stInv_return e st
  | .ifStmt c t e, st =>
    stInv_trans (stInv_of_expr c st)
      (stInv_trans (sem_stmt_inv t _) (sem_opt_stmt_inv e _))
  | .whileStmt c b, st =>
    stInv_trans (stInv_of_expr c st) (sem_stmt_inv b _)
  | .forStmt init c u b, st => by
    rcases c with _ | ce
    · rcases u with _ | ue
      · simp only [sem_visit_statement]
        exact stInv_enter_exit "for" (Or.inl (Or.inr (Or.inl rfl)))
          (stInv_trans (sem_opt_stmt_inv init
              { st with symbol_table := enter_scope st.symbol_table "for" })
            (sem_stmt_inv b _))
          rfl rfl rfl rfl rfl rfl
      · simp only [sem_visit_statement]
        exact stInv_enter_exit "for" (Or.inl (Or.inr (Or.inl rfl)))
          (stInv_trans (sem_opt_stmt_inv init
              { st with symbol_table := enter_scope st.symbol_table "for" })
            (stInv_trans (stInv_of_expr ue _) (sem_stmt_inv b _)))
          rfl rfl rfl rfl rfl rfl
    · rcases u with _ | ue
      · simp only [sem_visit_statement]
        exact stInv_enter_exit "for" (Or.inl (Or.inr (Or.inl rfl)))
          (stInv_trans (sem_opt_stmt_inv init
              { st with symbol_table := enter_scope st.symbol_table "for" })
            (stInv_trans (stInv_of_expr ce _) (sem_stmt_inv b _)))
          rfl rfl rfl rfl rfl rfl
      · simp only [sem_visit_statement]
        exact stInv_enter_exit "for" (Or.inl (Or.inr (Or.inl rfl)))
          (stInv_trans (sem_opt_stmt_inv init
              { st with symbol_table := enter_scope st.symbol_table "for" })
            (stInv_trans (stInv_of_expr ce _)
              (stInv_trans (stInv_of_expr ue _) (sem_stmt_inv b _))))
          rfl rfl rfl rfl rfl rfl

theorem sem_opt_stmt_inv : ∀ (o : OptStmt) (st : AnalyzerState),
    StInv st (sem_visit_opt_stmt o st)
  | .none, st => stInv_refl st
  | .some s, st => sem_stmt_inv s st

theorem sem_stmt_list_inv : ∀ (l : StmtList) (st : AnalyzerState),
    StInv st (sem_visit_stmt_list l st)
  | .nil, st => stInv_refl st
  | .cons s rest, st =>
    stInv_trans (sem_stmt_inv s st) (sem_stmt_list_inv rest (sem_visit_statement s st))
end

theorem stInv_params_fold (ps : List (String × String)) (st : AnalyzerState) :
    StInv st (ps.foldl (fun acc pr => declareS pr.2 pr.1 acc) st) := by
  induction ps generalizing st with
  | nil => exact stInv_refl st
  | cons p rest ih =>
    exact stInv_trans (stInv_declareS p.2 p.1 st) (ih _)

theorem sem_function_decl_inv (return_type name : String)
    (parameters : List (String × String)) (body : Option StmtList)
    (st : AnalyzerState) :
    StInv st (sem_visit_function_decl return_type name parameters body st) := by
  unfold sem_visit_function_decl
  cases body with
  | none => exact stInv_declareS name ("function:" ++ return_type) st
  | some stmts =>
    refine stInv_trans (stInv_declareS name ("function:" ++ return_type) st) ?_
    exact stInv_enter_exit ("function:" ++ name)
      (Or.inl (Or.inr (Or.inr (Or.inr ⟨name, rfl⟩))))
      (stInv_trans (stInv_params_fold parameters
          { declareS name ("function:" ++ return_type) st with
              symbol_table :=
                enter_scope (declareS name ("function:" ++ return_type) st).symbol_table
                  ("function:" ++ name),
              current_function_return_type := some return_type })
        (sem_stmt_list_inv stmts _))
      rfl rfl rfl rfl rfl rfl

theorem sem_decl_inv (d : Decl) (st : AnalyzerState) :
    StInv st (sem_visit_decl d st) := by
  cases d with
  | functionDecl rt n ps b => exact sem_function_decl_inv rt n ps b st
  | varDecl vt n i => exact stInv_var_decl vt n i st

theorem sem_decls_inv (ds : List Decl) (st : AnalyzerState) :
    StInv st (sem_visit_decls ds st) := by
  induction ds generalizing st with
  | nil => exact stInv_refl st
  | cons d rest ih =>
    exact stInv_trans (sem_decl_inv d st) (ih _)

theorem not_outer_function_prefix : ¬ ∃ n, ("outer" : String) = "function:" ++ n := by
  rintro ⟨n, h⟩
  have hd := congrArg (fun s => s.data.length) h
  simp [String.data_append] at hd

/- ### Claim theorems for the semantic analyzer -/

/-- C8: after the semantic analyzer finishes its walk of any complete
Program (whether or not it then raises), every scope frame pushed by a
function body, nested block or `for` statement has been popped again: the
scope stack holds exactly one frame. -/
theorem c8_scope_balance (p : Program) :
    (sem_visit_program p).symbol_table.scopes.length = 1 := by
  obtain ⟨_, hn, _⟩ := sem_decls_inv p.declarations initAnalyzerState
  have h1 : initAnalyzerState.symbol_table.scopes.length = 1 := rfl
  exact (hn (by rw [h1])).trans h1

/-- C2 counterexample: in the program `int f() {} int x;`, `exit_scope`
leaves `current_scope = "outer"` after the function body, so the global
variable `x` is recorded with scope label `"outer"`, which is not in the
claimed closed set. -/
theorem c2_counterexample :
    ∃ sym ∈ get_all_symbols
      (sem_visit_program
        ⟨[Decl.functionDecl "int" "f" [] (some .nil),
          Decl.varDecl "int" "x" none]⟩).symbol_table,
      sym.scope = "outer" ∧ ¬ ScopeLabelOK sym.scope := by
  refine ⟨⟨"x", "int", "outer"⟩, ?_, rfl, ?_⟩
  · simp [sem_visit_program, sem_visit_decls, sem_visit_decl,
      sem_visit_function_decl, sem_visit_var_decl, sem_visit_stmt_list,
      declareS, declare, enter_scope, exit_scope, initAnalyzerState,
      initSymbolTable, get_all_symbols, sem_error]
  · rintro (h | h | h | h)
    · exact absurd h (by decide)
    · exact absurd h (by decide)
    · exact absurd h (by decide)
    · exact not_outer_function_prefix h

/-- C2 amended: every Symbol ever recorded by the semantic analyzer on any
Program — the complete ghost declaration log of the walk, which receives a
copy of every symbol `declare` ever inserts, including those of
function/for/block frames popped before the walk ends — carries a scope
label drawn from {`global`, `function:<name>`, `for`, `block`} **or** the
label `outer` that `exit_scope` installs as the current scope after popping
any frame; the symbols still in the final table are so labelled as well. -/
theorem c2_amended_scope_labels (p : Program) :
    (∀ sym ∈ (sem_visit_program p).log, ScopeLabelOKExt sym.scope) ∧
    (∀ sym ∈ get_all_symbols (sem_visit_program p).symbol_table,
      ScopeLabelOKExt sym.scope) := by
  obtain ⟨_, _, hs, hg⟩ := sem_decls_inv p.declarations initAnalyzerState
  have hok : ScopesOK initAnalyzerState.symbol_table := by
    constructor
    · intro fr hfr pr hpr
      have : fr = [] := by
        simpa [initAnalyzerState, initSymbolTable] using hfr
      subst this
      cases hpr
    · exact Or.inl (Or.inl rfl)
  constructor
  · obtain ⟨g, hgl, hgo⟩ := hg hok
    have hlog : (sem_visit_program p).log = g := by
      rw [sem_visit_program, hgl]; rfl
    intro sym hmem
    rw [hlog] at hmem
    exact hgo sym hmem
  · obtain ⟨hfr, _⟩ := hs hok
    intro sym hmem
    unfold get_all_symbols at hmem
    rw [List.mem_flatten] at hmem
    obtain ⟨l, hl, hsl⟩ := hmem
    rw [List.mem_map] at hl
    obtain ⟨fr, hfr2, rfl⟩ := hl
    rw [List.mem_reverse] at hfr2
    rw [List.mem_map] at hsl
    obtain ⟨pr, hpr, rfl⟩ := hsl
    exact hfr fr hfr2 pr hpr

/-- C2 amended witness: a parameter of `int f(int a) {}` is recorded (into
the later-popped `function:f` frame, hence absent from the final table but
present in the log) with the label `function:f`, which is in the extended
set. -/
theorem c2_amended_scope_labels_witness :
    Symbol.mk "a" "int" "function:f" ∈
      (sem_visit_program
        ⟨[Decl.functionDecl "int" "f" [("int", "a")] (some .nil)]⟩).log ∧
    ScopeLabelOKExt (Symbol.mk "a" "int" "function:f").scope := by
  have hmem : Symbol.mk "a" "int" "function:f" ∈
      (sem_visit_program
        ⟨[Decl.functionDecl "int" "f" [("int", "a")] (some .nil)]⟩).log := by
    simp [sem_visit_program, sem_visit_decls, sem_visit_decl,
      sem_visit_function_decl, sem_visit_stmt_list, declareS, declare,
      enter_scope, exit_scope, initAnalyzerState, initSymbolTable, sem_error]
  exact ⟨hmem, (c2_amended_scope_labels _).1 _ hmem⟩

/-- C3: the semantic analyzer completes one full walk of the AST (each
declaration is processed in sequence, regardless of errors discovered in
earlier ones), accumulates diagnostics (the error list of the walk extends
the incoming one), and `analyze` raises `SemanticError` exactly once, after
the walk, iff the accumulated list is non-empty. -/
theorem c3_error_accumulation (p : Program) :
    ((∃ msg, analyze p = .error msg) ↔ (sem_visit_program p).errors ≠ []) ∧
    (∀ (d : Decl) (ds : List Decl) (st : AnalyzerState),
      sem_visit_decls (d :: ds) st = sem_visit_decls ds (sem_visit_decl d st)) ∧
    (∀ st : AnalyzerState,
      ∃ l, (sem_visit_decls p.declarations st).errors = st.errors ++ l) := by
  refine ⟨?_, fun d ds st => rfl, fun st => (sem_decls_inv p.declarations st).1⟩
  unfold analyze
  by_cases h : (sem_visit_program p).errors ≠ []
  · rw [if_pos h]
    exact ⟨fun _ => h, fun _ => ⟨"Semantic analysis failed", rfl⟩⟩
  · rw [if_neg h]
    constructor
    · rintro ⟨msg, hmsg⟩
      cases hmsg
    · intro hne
      exact absurd hne h

/- ### Peephole pass: lemmas and claim -/

theorem splitWs_cons_ws {c : Char} (l : List Char) (h : c.isWhitespace) :
    splitWs (c :: l) = splitWs l := by
  rw [splitWs]
  simp [h]

theorem splitWs_word (w l : List Char) (hw : w ≠ [])
    (hall : ∀ c ∈ w, ¬ c.isWhitespace)
    (hl : l = [] ∨ ∃ d t, l = d :: t ∧ d.isWhitespace) :
    splitWs (w ++ l) = w :: splitWs l := by
  cases w with
  | nil => exact absurd rfl hw
  | cons c cs =>
    rw [List.cons_append, splitWs]
    have hc : ¬ c.isWhitespace := hall c (by simp)
    have htake : (c :: (cs ++ l)).takeWhile (fun d => !d.isWhitespace) = c :: cs := by
      have : (c :: (cs ++ l)) = (c :: cs) ++ l := by simp
      rw [this, List.takeWhile_append_of_pos (by simpa using hall)]
      have hltake : l.takeWhile (fun d => !d.isWhitespace) = [] := by
        rcases hl with rfl | ⟨d, t, rfl, hd⟩
        · rfl
        · exact List.takeWhile_cons_of_neg (by simpa using hd)
      rw [hltake, List.append_nil]
    have hdrop : (c :: (cs ++ l)).dropWhile (fun d => !d.isWhitespace) = l := by
      have : (c :: (cs ++ l)) = (c :: cs) ++ l := by simp
      rw [this, List.dropWhile_append_of_pos (by simpa using hall)]
      rcases hl with rfl | ⟨d, t, rfl, hd⟩
      · rfl
      · exact List.dropWhile_cons_of_neg (by simpa using hd)
    rw [dif_neg hc, htake, hdrop]

theorem pySplit_mov_line (r : String) (h1 : r.data ≠ [])
    (h2 : ∀ c ∈ r.data, ¬ c.isWhitespace)
    : pySplit ("    MOV " ++ r ++ ", " ++ r) = ["MOV", r ++ ",", r] := by
  unfold pySplit
  have hdata : ("    MOV " ++ r ++ ", " ++ r).data =
      ' ' :: ' ' :: ' ' :: ' ' ::
        (['M', 'O', 'V'] ++ (' ' :: ((r.data ++ [',']) ++ (' ' :: r.data)))) := by
    simp [String.data_append]
  rw [hdata]
  rw [splitWs_cons_ws _ (by decide), splitWs_cons_ws _ (by decide),
    splitWs_cons_ws _ (by decide), splitWs_cons_ws _ (by decide)]
  rw [splitWs_word ['M', 'O', 'V'] _ (by decide) (by decide)
    (Or.inr ⟨' ', _, rfl, by decide⟩)]
  rw [splitWs_cons_ws _ (by decide)]
  rw [splitWs_word (r.data ++ [',']) _ (by simp)
    (by
      intro c hc
      rcases List.mem_append.mp hc with hc | hc
      · exact h2 c hc
      · rcases List.mem_singleton.mp hc with rfl
        decide)
    (Or.inr ⟨' ', _, rfl, by decide⟩)]
  rw [splitWs_cons_ws _ (by decide)]
  have hlast : splitWs r.data = [r.data] := by
    have h0 := splitWs_word r.data [] h1 h2 (Or.inl rfl)
    rw [List.append_nil] at h0
    rw [h0, splitWs]
  rw [hlast]
  simp only [List.map_cons, List.map_nil]
  have e1 : (⟨['M', 'O', 'V']⟩ : String) = "MOV" := rfl
  have e2 : (⟨r.data ++ [',']⟩ : String) = r ++ "," := by
    apply String.ext
    rw [String.data_append]
  have e3 : (⟨r.data⟩ : String) = r := rfl
  rw [e1, e2, e3]

theorem rstripComma_append_comma (r : String) (h : ∀ c ∈ r.data, c ≠ ',') :
    rstripComma (r ++ ",") = r := by
  unfold rstripComma
  have hd : (r ++ ",").data = r.data ++ [','] := by
    rw [String.data_append]
  rw [hd, List.reverse_append]
  simp only [List.reverse_cons, List.reverse_nil, List.nil_append,
    List.singleton_append]
  rw [List.dropWhile_cons_of_pos (by simp)]
  have hrest : r.data.reverse.dropWhile (fun c => c = ',') = r.data.reverse := by
    cases hrev : r.data.reverse with
    | nil => rfl
    | cons a t =>
      have ha : a ∈ r.data := by
        rw [← List.mem_reverse, hrev]
        simp
      exact List.dropWhile_cons_of_neg (by simpa using h a ha)
  rw [hrest, List.reverse_reverse]

theorem contains_mov_line (r : String) :
    containsSub "MOV".data ("    MOV " ++ r ++ ", " ++ r).data = true := by
  unfold containsSub
  rw [decide_eq_true_eq]
  refine ⟨[' ', ' ', ' ', ' '], ' ' :: ((r.data ++ [',']) ++ (' ' :: r.data)), ?_⟩
  simp [String.data_append]

theorem isRedundantMov_mov_line (r : String) (h1 : r.data ≠ [])
    (h2 : ∀ c ∈ r.data, ¬ c.isWhitespace ∧ c ≠ ',') :
    isRedundantMov ("    MOV " ++ r ++ ", " ++ r) = true := by
  unfold isRedundantMov
  rw [contains_mov_line r, pySplit_mov_line r h1 (fun c hc => (h2 c hc).1)]
  simp only [Bool.true_and]
  rw [rstripComma_append_comma r (fun c hc => (h2 c hc).2)]
  simp

theorem optimize_eq_filter (lines : List String) :
    (optimize lines).1 = lines.filter (fun l => !isRedundantMov l) := by
  induction lines with
  | nil => rfl
  | cons line rest ih =>
    simp only [optimize]
    cases h : isRedundantMov line with
    | true => simp [h, ih, List.filter_cons]
    | false => simp [h, ih, List.filter_cons]

/-- C5: after the single forward peephole walk, no line of the emitted form
`    MOV r, r` (identical source and destination register, `r` a register
name: nonempty, no whitespace, no comma) remains; the surviving lines are a
sublist of the input, and every line not containing `"MOV"` is preserved
unchanged and in order. -/
theorem c5_peephole (lines : List String) :
    (∀ r : String, r.data ≠ [] → (∀ c ∈ r.data, ¬ c.isWhitespace ∧ c ≠ ',') →
      ("    MOV " ++ r ++ ", " ++ r) ∉ (optimize lines).1) ∧
    List.Sublist (optimize lines).1 lines ∧
    (optimize lines).1.filter (fun l => !containsSub "MOV".data l.data) =
      lines.filter (fun l => !containsSub "MOV".data l.data) := by
  refine ⟨?_, ?_, ?_⟩
  · intro r h1 h2 hmem
    rw [optimize_eq_filter, List.mem_filter] at hmem
    rw [isRedundantMov_mov_line r h1 h2] at hmem
    exact absurd hmem.2 (by decide)
  · rw [optimize_eq_filter]
    exact List.filter_sublist _
  · rw [optimize_eq_filter, List.filter_filter]
    refine List.filter_congr ?_
    intro l _
    cases hc : containsSub "MOV".data l.data with
    | true => simp
    | false =>
      have hr : isRedundantMov l = false := by
        unfold isRedundantMov
        rw [hc]
        rfl
      simp [hr]

/-- C5 witness: `MOV R1, R1` is removed, a prologue line survives. -/
theorem c5_peephole_witness :
    ("    MOV R1, R1" : String) ∉
      (optimize ["    MOV R1, R1", "    MOV BP, SP"]).1 := by
  have h := (c5_peephole ["    MOV R1, R1", "    MOV BP, SP"]).1 "R1"
    (by decide) (by decide)
  simpa using h

/- ### Lexer: error classification and token-stream structure -/

theorem read_number_loop_error_msg : ∀ (l : List Char) (li co : Nat) (fl : Bool)
    (acc : List Char) (e : LexErr),
    read_number_loop l li co fl acc = .error e → e.message = "Invalid number format"
  | [], li, co, fl, acc, e => by
    intro h
    rw [read_number_loop] at h
    cases h
  | c :: cs, li, co, fl, acc, e => by
    intro h
    rw [read_number_loop] at h
    split_ifs at h with h1 h2 h3
    · cases h
      rfl
    · exact read_number_loop_error_msg cs li (co + 1) true (c :: acc) e h
    · exact read_number_loop_error_msg cs li (co + 1) fl (c :: acc) e h

theorem read_number_error_msg {l : List Char} {li co : Nat} {e : LexErr}
    (h : read_number l li co = .error e) : e.message = "Invalid number format" := by
  unfold read_number at h
  cases hr : read_number_loop l li co false [] with
  | error e2 =>
    rw [hr] at h
    cases h
    exact read_number_loop_error_msg l li co false [] e hr
  | ok out =>
    obtain ⟨v, r, l2, c2, fl⟩ := out
    rw [hr] at h
    cases h

theorem read_string_loop_error_msg : ∀ (l : List Char) (li co : Nat)
    (acc : List Char) (e : LexErr),
    read_string_loop l li co acc = .error e → e.message = "Unterminated string literal"
  | [], li, co, acc, e => by
    intro h
    rw [read_string_loop] at h
    cases h
    rfl
  | c :: cs, li, co, acc, e => by
    intro h
    rw [read_string_loop] at h
    split_ifs at h with h1 h2
    · exact read_string_loop_error_msg cs.tail li (co + 2) ('"' :: acc) e h
    · exact read_string_loop_error_msg cs (advancePos c li co).1 (advancePos c li co).2
        (c :: acc) e h
termination_by l => l.length
decreasing_by
  all_goals (simp only [List.length_cons, List.length_tail]; omega)

theorem read_string_error_msg {l : List Char} {li co : Nat} {e : LexErr}
    (h : read_string l li co = .error e) : e.message = "Unterminated string literal" := by
  cases l with
  | nil =>
    rw [read_string] at h
    cases h
    rfl
  | cons c cs =>
    simp only [read_string] at h
    cases hr : read_string_loop cs (advancePos c li co).1 (advancePos c li co).2 [] with
    | error e2 =>
      rw [hr] at h
      simp only at h
      cases h
      exact read_string_loop_error_msg cs _ _ [] e hr
    | ok out =>
      obtain ⟨v, r, l2, c2⟩ := out
      rw [hr] at h
      simp only at h
      cases h

theorem tokenize_loop_error_msg (l : List Char) (line col : Nat) (acc : List Token) :
    ∀ e, tokenize_loop l line col acc = .error e → LexMsgOK e.message := by
  induction l, line, col, acc using tokenize_loop.induct with
  | case1 l line col acc l2 c2 hsw =>
    intro e h
    rw [tokenize_loop, hsw] at h
    simp only at h
    cases h
  | case2 l line col acc c rest l2 c2 hsw hcm sc ih =>
    intro e h
    rw [tokenize_loop, hsw] at h
    simp only at h
    rw [dif_pos hcm] at h
    exact ih e h
  | case3 l line col acc c rest l2 c2 hsw hcm hdg e2 hrn =>
    intro e h
    rw [tokenize_loop, hsw] at h
    simp only at h
    rw [dif_neg hcm, dif_pos hdg, hrn] at h
    simp only at h
    cases h
    exact Or.inl (read_number_error_msg hrn)
  | case4 l line col acc c rest l2 c2 hsw hcm hdg tok rest2 l3 c3 hrn ih =>
    intro e h
    rw [tokenize_loop, hsw] at h
    simp only at h
    rw [dif_neg hcm, dif_pos hdg, hrn] at h
    simp only at h
    exact ih e h
  | case5 l line col acc c rest l2 c2 hsw hcm hdg hal r ih =>
    intro e h
    rw [tokenize_loop, hsw] at h
    simp only at h
    rw [dif_neg hcm, dif_neg hdg, dif_pos hal] at h
    exact ih e h
  | case6 l line col acc rest l2 c2 e2 hsw hcm hdg hal hrs =>
    intro e h
    rw [tokenize_loop, hsw] at h
    simp only at h
    rw [dif_neg hcm, dif_neg hdg, dif_neg hal, dif_pos trivial, hrs] at h
    simp only at h
    cases h
    exact Or.inr (Or.inl (read_string_error_msg hrs))
  | case7 l line col acc rest l2 c2 tok rest2 l3 c3 hsw hcm hdg hal hrs ih =>
    intro e h
    rw [tokenize_loop, hsw] at h
    simp only at h
    rw [dif_neg hcm, dif_neg hdg, dif_neg hal, dif_pos trivial, hrs] at h
    simp only at h
    exact ih e h
  | case8 l line col acc c rest l2 c2 hsw hcm hdg hal hq tt htc ih =>
    intro e h
    rw [tokenize_loop, hsw] at h
    simp only at h
    rw [dif_neg hcm, dif_neg hdg, dif_neg hal, dif_neg hq, htc] at h
    simp only at h
    exact ih e h
  | case9 l line col acc c rest l2 c2 hsw hcm hdg hal hq htc tt hsc p ih =>
    intro e h
    rw [tokenize_loop, hsw] at h
    simp only at h
    rw [dif_neg hcm, dif_neg hdg, dif_neg hal, dif_neg hq, htc, hsc] at h
    simp only at h
    exact ih e h
  | case10 l line col acc c rest l2 c2 hsw hcm hdg hal hq htc hsc =>
    intro e h
    rw [tokenize_loop, hsw] at h
    simp only at h
    rw [dif_neg hcm, dif_neg hdg, dif_neg hal, dif_neg hq, htc, hsc] at h
    simp only at h
    cases h
    exact Or.inr (Or.inr ⟨c, rfl⟩)

theorem keywordType_ne_eof (s : String) : keywordType s ≠ TokenType.EOF := by
  unfold keywordType
  split_ifs <;> decide

theorem read_number_ok_type {l : List Char} {li co : Nat} {tok : Token}
    {r : List Char} {l2 c2 : Nat}
    (h : read_number l li co = .ok (tok, r, l2, c2)) : tok.type ≠ TokenType.EOF := by
  unfold read_number at h
  cases hr : read_number_loop l li co false [] with
  | error e => rw [hr] at h; cases h
  | ok out =>
    obtain ⟨v, r2, l3, c3, fl⟩ := out
    rw [hr] at h
    cases h
    cases fl <;> simp

theorem read_identifier_type (l : List Char) (li co : Nat) :
    (read_identifier l li co).1.type ≠ TokenType.EOF :=
  keywordType_ne_eof _

theorem read_string_ok_type {l : List Char} {li co : Nat} {tok : Token}
    {r : List Char} {l2 c2 : Nat}
    (h : read_string l li co = .ok (tok, r, l2, c2)) : tok.type ≠ TokenType.EOF := by
  cases l with
  | nil => rw [read_string] at h; cases h
  | cons c cs =>
    simp only [read_string] at h
    cases hr : read_string_loop cs (advancePos c li co).1 (advancePos c li co).2 [] with
    | error e =>
      rw [hr] at h
      simp only at h
      cases h
    | ok out =>
      obtain ⟨v, r2, l3, c3⟩ := out
      rw [hr] at h
      simp only at h
      cases h
      simp

theorem two_char_type_ne_eof {c : Char} {n : Option Char} {tt : TokenType}
    (h : two_char_type c n = some tt) : tt ≠ TokenType.EOF := by
  unfold two_char_type at h
  split at h <;> cases h <;> decide

theorem single_char_type_ne_eof {c : Char} {tt : TokenType}
    (h : single_char_type c = some tt) : tt ≠ TokenType.EOF := by
  unfold single_char_type at h
  cases hf : single_char_tokens.find? (fun p => p.1 == c) with
  | none => rw [hf] at h; cases h
  | some p =>
    rw [hf] at h
    cases h
    have hmem := List.mem_of_find?_eq_some hf
    have hall : ∀ q ∈ single_char_tokens, q.2 ≠ TokenType.EOF := by decide
    exact hall p hmem

theorem tokenize_loop_ok_structure (l : List Char) (line col : Nat) (acc : List Token) :
    ∀ ts, tokenize_loop l line col acc = .ok ts →
      ∃ mid li2 co2, ts = acc ++ mid ++ [⟨.EOF, "", li2, co2⟩] ∧
        ∀ t ∈ mid, t.type ≠ TokenType.EOF := by
  induction l, line, col, acc using tokenize_loop.induct with
  | case1 l line col acc l2 c2 hsw =>
    intro ts h
    rw [tokenize_loop, hsw] at h
    simp only at h
    cases h
    exact ⟨[], l2, c2, by simp, by simp⟩
  | case2 l line col acc c rest l2 c2 hsw hcm sc ih =>
    intro ts h
    rw [tokenize_loop, hsw] at h
    simp only at h
    rw [dif_pos hcm] at h
    exact ih ts h
  | case3 l line col acc c rest l2 c2 hsw hcm hdg e2 hrn =>
    intro ts h
    rw [tokenize_loop, hsw] at h
    simp only at h
    rw [dif_neg hcm, dif_pos hdg, hrn] at h
    simp only at h
    cases h
  | case4 l line col acc c rest l2 c2 hsw hcm hdg tok rest2 l3 c3 hrn ih =>
    intro ts h
    rw [tokenize_loop, hsw] at h
    simp only at h
    rw [dif_neg hcm, dif_pos hdg, hrn] at h
    simp only at h
    obtain ⟨mid, li2, co2, hts, hmid⟩ := ih ts h
    refine ⟨tok :: mid, li2, co2, by simpa [List.append_assoc] using hts, ?_⟩
    intro t ht
    rcases List.mem_cons.mp ht with rfl | ht
    · exact read_number_ok_type hrn
    · exact hmid t ht
  | case5 l line col acc c rest l2 c2 hsw hcm hdg hal r ih =>
    intro ts h
    rw [tokenize_loop, hsw] at h
    simp only at h
    rw [dif_neg hcm, dif_neg hdg, dif_pos hal] at h
    obtain ⟨mid, li2, co2, hts, hmid⟩ := ih ts h
    refine ⟨(read_identifier (c :: rest) l2 c2).1 :: mid, li2, co2,
      by simpa [List.append_assoc] using hts, ?_⟩
    intro t ht
    rcases List.mem_cons.mp ht with rfl | ht
    · exact read_identifier_type (c :: rest) l2 c2
    · exact hmid t ht
  | case6 l line col acc rest l2 c2 e2 hsw hcm hdg hal hrs =>
    intro ts h
    rw [tokenize_loop, hsw] at h
    simp only at h
    rw [dif_neg hcm, dif_neg hdg, dif_neg hal, dif_pos trivial, hrs] at h
    simp only at h
    cases h
  | case7 l line col acc rest l2 c2 tok rest2 l3 c3 hsw hcm hdg hal hrs ih =>
    intro ts h
    rw [tokenize_loop, hsw] at h
    simp only at h
    rw [dif_neg hcm, dif_neg hdg, dif_neg hal, dif_pos trivial, hrs] at h
    simp only at h
    obtain ⟨mid, li2, co2, hts, hmid⟩ := ih ts h
    refine ⟨tok :: mid, li2, co2, by simpa [List.append_assoc] using hts, ?_⟩
    intro t ht
    rcases List.mem_cons.mp ht with rfl | ht
    · exact read_string_ok_type hrs
    · exact hmid t ht
  | case8 l line col acc c rest l2 c2 hsw hcm hdg hal hq tt htc ih =>
    intro ts h
    rw [tokenize_loop, hsw] at h
    simp only at h
    rw [dif_neg hcm, dif_neg hdg, dif_neg hal, dif_neg hq, htc] at h
    simp only at h
    obtain ⟨mid, li2, co2, hts, hmid⟩ := ih ts h
    refine ⟨⟨tt, twoCharValue c rest.head?, l2, c2⟩ :: mid, li2, co2,
      by simpa [List.append_assoc] using hts, ?_⟩
    intro t ht
    rcases List.mem_cons.mp ht with rfl | ht
    · exact two_char_type_ne_eof htc
    · exact hmid t ht
  | case9 l line col acc c rest l2 c2 hsw hcm hdg hal hq htc tt hsc p ih =>
    intro ts h
    rw [tokenize_loop, hsw] at h
    simp only at h
    rw [dif_neg hcm, dif_neg hdg, dif_neg hal, dif_neg hq, htc, hsc] at h
    simp only at h
    obtain ⟨mid, li2, co2, hts, hmid⟩ := ih ts h
    refine ⟨⟨tt, ⟨[c]⟩, l2, c2⟩ :: mid, li2, co2,
      by simpa [List.append_assoc] using hts, ?_⟩
    intro t ht
    rcases List.mem_cons.mp ht with rfl | ht
    · exact single_char_type_ne_eof hsc
    · exact hmid t ht
  | case10 l line col acc c rest l2 c2 hsw hcm hdg hal hq htc hsc =>
    intro ts h
    rw [tokenize_loop, hsw] at h
    simp only at h
    rw [dif_neg hcm, dif_neg hdg, dif_neg hal, dif_neg hq, htc, hsc] at h
    simp only at h
    cases h

/-- C7: `tokenize` either fails with one of exactly three lexical errors —
malformed number (second dot), unterminated string literal, or unexpected
character — or returns a finite token sequence whose last token is `EOF`
and in which no earlier token is `EOF`. -/
theorem c7_lexer_contract (source : List Char) :
    (∀ e, tokenize source = .error e →
      e.message = "Invalid number format" ∨
      e.message = "Unterminated string literal" ∨
      ∃ c : Char, e.message = "Unexpected character: \x27" ++ ⟨[c]⟩ ++ "\x27") ∧
    (∀ ts, tokenize source = .ok ts →
      ∃ ts0 li2 co2, ts = ts0 ++ [⟨.EOF, "", li2, co2⟩] ∧
        ∀ t ∈ ts0, t.type ≠ TokenType.EOF) := by
  constructor
  · intro e h
    exact tokenize_loop_error_msg source 1 1 [] e h
  · intro ts h
    obtain ⟨mid, li2, co2, hts, hmid⟩ := tokenize_loop_ok_structure source 1 1 [] ts h
    exact ⟨mid, li2, co2, by simpa using hts, hmid⟩

/-- C7 witness: scanning `x` yields `IDENTIFIER then EOF`, and the contract
instantiates on it. -/
theorem c7_lexer_contract_witness :
    tokenize ['x'] = .ok [⟨.IDENTIFIER, "x", 1, 1⟩, ⟨.EOF, "", 1, 2⟩] ∧
    ∃ ts0 li2 co2,
      [(⟨.IDENTIFIER, "x", 1, 1⟩ : Token), ⟨.EOF, "", 1, 2⟩] =
        ts0 ++ [⟨.EOF, "", li2, co2⟩] ∧
      ∀ t ∈ ts0, t.type ≠ TokenType.EOF := by
  have hg : tokenize ['x'] = .ok [⟨.IDENTIFIER, "x", 1, 1⟩, ⟨.EOF, "", 1, 2⟩] := by
    simp [tokenize, tokenize_loop, skip_whitespace, isSpaceChar, read_identifier,
      read_identifier_loop, keywordType, two_char_type, single_char_type,
      single_char_tokens, advancePos]
  exact ⟨hg, (c7_lexer_contract ['x']).2 _ hg⟩

/- ### C9: assignment-target rule -/

/-- C9: when the parser has parsed an expression at assignment level
(`parse_logical_or`) and the next token is `=`, it accepts the assignment
exactly when the parsed left operand is an `Identifier` node — continuing
with the right-hand expression and building an `Assignment` — and for every
other expression form raises a parse error whose message is
"Invalid assignment target", positioned at the `=` token. -/
theorem c9_assignment_target (fuel : Nat) (st st1 : PState) (e : Expression)
    (hor : parse_logical_or fuel st = .ok (e, st1))
    (ha : (pcur st1).type = TokenType.ASSIGN) :
    (∀ name, e = Expression.ident name →
      parse_expression (fuel+1) st =
        match parse_expression fuel (padvance st1) with
        | .error err => .error err
        | .ok (v, st2) => .ok (.assignment name v, st2)) ∧
    ((∀ name, e ≠ Expression.ident name) →
      parse_expression (fuel+1) st = .error (perror st1 "Invalid assignment target")) := by
  rw [parse_logical_or] at hor
  constructor
  · intro name he
    subst he
    rw [parse_expression, hor]
    simp [ha]
  · intro hne
    rw [parse_expression, hor]
    rcases e with v | v | v | name | ⟨op, l, r⟩ | ⟨op, o⟩ | ⟨t, v⟩ | ⟨n, args⟩
    · simp [ha]
    · simp [ha]
    · simp [ha]
    · exact absurd rfl (hne name)
    · simp [ha]
    · simp [ha]
    · simp [ha]
    · simp [ha]

/-- C9 witness: on `x = 2` the assignment is accepted and built; on `1 = 2`
the parser reports "Invalid assignment target" at the `=` token. -/
theorem c9_assignment_target_witness :
    parse_expression 21
        ⟨[⟨.IDENTIFIER, "x", 1, 1⟩, ⟨.ASSIGN, "=", 1, 3⟩,
          ⟨.INTEGER_LITERAL, "2", 1, 5⟩, ⟨.EOF, "", 1, 6⟩], 0⟩ =
      .ok (.assignment "x" (.intLit 2),
        ⟨[⟨.IDENTIFIER, "x", 1, 1⟩, ⟨.ASSIGN, "=", 1, 3⟩,
          ⟨.INTEGER_LITERAL, "2", 1, 5⟩, ⟨.EOF, "", 1, 6⟩], 3⟩) ∧
    parse_expression 21
        ⟨[⟨.INTEGER_LITERAL, "1", 1, 1⟩, ⟨.ASSIGN, "=", 1, 3⟩,
          ⟨.INTEGER_LITERAL, "2", 1, 5⟩, ⟨.EOF, "", 1, 6⟩], 0⟩ =
      .error ⟨1, 3, "Invalid assignment target"⟩ := by
  constructor
  · have hor : parse_logical_or 20
        ⟨[⟨.IDENTIFIER, "x", 1, 1⟩, ⟨.ASSIGN, "=", 1, 3⟩,
          ⟨.INTEGER_LITERAL, "2", 1, 5⟩, ⟨.EOF, "", 1, 6⟩], 0⟩ =
        .ok (.ident "x",
          ⟨[⟨.IDENTIFIER, "x", 1, 1⟩, ⟨.ASSIGN, "=", 1, 3⟩,
            ⟨.INTEGER_LITERAL, "2", 1, 5⟩, ⟨.EOF, "", 1, 6⟩], 1⟩) := by rfl
    have ha : (pcur (⟨[⟨.IDENTIFIER, "x", 1, 1⟩, ⟨.ASSIGN, "=", 1, 3⟩,
        ⟨.INTEGER_LITERAL, "2", 1, 5⟩, ⟨.EOF, "", 1, 6⟩], 1⟩ : PState)).type =
        TokenType.ASSIGN := by rfl
    have h2 := (c9_assignment_target 20 _ _ _ hor ha).1 "x" rfl
    exact h2.trans (by rfl)
  · have hor : parse_logical_or 20
        ⟨[⟨.INTEGER_LITERAL, "1", 1, 1⟩, ⟨.ASSIGN, "=", 1, 3⟩,
          ⟨.INTEGER_LITERAL, "2", 1, 5⟩, ⟨.EOF, "", 1, 6⟩], 0⟩ =
        .ok (.intLit 1,
          ⟨[⟨.INTEGER_LITERAL, "1", 1, 1⟩, ⟨.ASSIGN, "=", 1, 3⟩,
            ⟨.INTEGER_LITERAL, "2", 1, 5⟩, ⟨.EOF, "", 1, 6⟩], 1⟩) := by rfl
    have ha : (pcur (⟨[⟨.INTEGER_LITERAL, "1", 1, 1⟩, ⟨.ASSIGN, "=", 1, 3⟩,
        ⟨.INTEGER_LITERAL, "2", 1, 5⟩, ⟨.EOF, "", 1, 6⟩], 1⟩ : PState)).type =
        TokenType.ASSIGN := by rfl
    have h2 := (c9_assignment_target 20 _ _ _ hor ha).2
      (fun name h => Expression.noConfusion h)
    exact h2.trans (by rfl)

end Compile
